import Mathlib

/-!
# pixel-timelapse-tool: the CSV decoder, the collator and the frame loop of `src/index.js`

A shallow embedding of `parseAndSortCSV`, `generateTimelapse` and `main`.

Modelling conventions.
* A JavaScript string is a `List Char`.  Every test the program performs on a
  character (comma, whitespace, sign, digit, backslash, `x`, hex digit) is a test
  on a character of the Basic Multilingual Plane, so code points and UTF-16 code
  units agree on all of them.
* A JavaScript number that can be `NaN` is a `Number = Option Int`, `none` being
  `NaN`.  Every number the program computes is `NaN`, infinite, or a double that
  holds an integer.  A finite double is the integer it holds; `Infinity` is
  `infinity = 2 ^ 1024`, the value that rounding overflows to, one step above the
  largest double, and `-Infinity` is `-infinity`; so the order of two numbers is
  the order of their representations.  `toDouble` rounds an exact integer to the
  double the program holds (nearest, ties to even, `infinity` on overflow).
* `undefined` (a missing array element) is `none`.
* An event of the encoder process reaches a listener only if the listener is
  attached when the event is emitted.  `generateTimelapse` is the run in which the
  end of the encoder reaches the listeners of source lines 131-143;
  `generateTimelapseTimed`, on which `main` is built, also covers an encoder that
  ends while the loop is running.
-/

namespace PixelTimelapse

/-! ## Constants -/

/-- Source line 9: `const CANVAS_SIZE = 1000;`. -/
def CANVAS_SIZE : Int := 1000

/-! ## JavaScript strings and numbers -/

/-- A JavaScript string. -/
abbrev JSString := List Char

/-- A JavaScript number that may be `NaN` (`none`). -/
abbrev Number := Option Int

/-- The representation of `Infinity`: `2 ^ 1024`, above every finite double. -/
def infinity : Int :=
  179769313486231590772930519078902473361797697894230657273430081157732675805500963132708477322407536021120113879871393357658789768814416622492847430639474124377767893424865485276302219601246094119453082952085005768838150682342462881473913110540827237163350510684586298239947245938479716304835356329624224137216

/-- The number of binary digits of `n`, for `n` below `2 ^ fuel`. -/
def bitLength : Nat → Nat → Nat
  | 0, _ => 0
  | fuel + 1, n => if n = 0 then 0 else bitLength fuel (n / 2) + 1

/-- The double nearest to a natural number: itself below `2 ^ 53`; otherwise its 53
leading binary digits, rounded to nearest with ties to the even significand, the
digits below replaced by zeros; `Infinity` from `2 ^ 1024 - 2 ^ 970` on, where
rounding reaches `2 ^ 1024`. -/
def roundNat (n : Nat) : Nat :=
  if n < 2 ^ 53 then n
  else if infinity.toNat ≤ n then infinity.toNat
  else
    let e := bitLength 1024 n - 53
    let q := n / 2 ^ e
    let r := n % 2 ^ e
    let q := if 2 * r < 2 ^ e ∨ (2 * r = 2 ^ e ∧ q % 2 = 0) then q else q + 1
    min (q * 2 ^ e) infinity.toNat

/-- The double (`Number::fromMathematicalValue`) for an exact integer. -/
def toDouble (v : Int) : Int :=
  if v < 0 then -(roundNat v.natAbs : Int) else (roundNat v.natAbs : Int)

/-- JavaScript `a - b` for two numbers that are not `NaN`: `NaN` for the difference
of two infinities of the same sign, otherwise the exact difference rounded to a
double. -/
def sub (a b : Int) : Number :=
  if a = infinity then (if b = infinity then none else some infinity)
  else if a = -infinity then (if b = -infinity then none else some (-infinity))
  else if b = infinity then some (-infinity)
  else if b = -infinity then some infinity
  else some (toDouble (a - b))

/-- The characters removed by `String.prototype.trim` and skipped by `parseInt`:
ECMAScript `WhiteSpace` and `LineTerminator`. -/
def isWhiteSpace (c : Char) : Bool :=
  let n := c.toNat
  n == 0x09 || n == 0x0A || n == 0x0B || n == 0x0C || n == 0x0D || n == 0x20 ||
  n == 0xA0 || n == 0x1680 || (0x2000 ≤ n && n ≤ 0x200A) || n == 0x2028 ||
  n == 0x2029 || n == 0x202F || n == 0x205F || n == 0x3000 || n == 0xFEFF

/-- `String.prototype.trimStart`. -/
def trimStart (s : JSString) : JSString := s.dropWhile isWhiteSpace

/-- `String.prototype.trim`: white space is removed at both ends. -/
def trim (s : JSString) : JSString :=
  ((trimStart s).reverse.dropWhile isWhiteSpace).reverse

/-- `String.prototype.split(',')`, for a one-character separator: the list of the
pieces between separators; it always has at least one element. -/
def split (sep : Char) : JSString → List JSString
  | [] => [[]]
  | c :: cs =>
    if c = sep then [] :: split sep cs
    else
      match split sep cs with
      | [] => [[c]]
      | p :: ps => (c :: p) :: ps

/-- `Array.prototype.slice(start, end)` and `String.prototype.slice(start, end)`:
negative indices count from the end, and every index is clamped to the length. -/
def slice {α : Type} (l : List α) (start stop : Int) : List α :=
  let len : Int := l.length
  let k := if start < 0 then max (len + start) 0 else min start len
  let final := if stop < 0 then max (len + stop) 0 else min stop len
  (l.drop k.toNat).take (final - k).toNat

/-- The value of a character as a digit in a radix up to 36, as `parseInt` reads
it: `0`-`9`, then `a`-`z` or `A`-`Z` for 10 to 35. -/
def digitValue (c : Char) : Option Nat :=
  let n := c.toNat
  if 48 ≤ n ∧ n ≤ 57 then some (n - 48)
  else if 97 ≤ n ∧ n ≤ 122 then some (n - 97 + 10)
  else if 65 ≤ n ∧ n ≤ 90 then some (n - 65 + 10)
  else none

/-- Whether a character is a digit of the given radix. -/
def isRadixDigit (radix : Nat) (c : Char) : Bool :=
  match digitValue c with
  | some d => decide (d < radix)
  | none => false

/-- The mathematical value of a string of radix digits. -/
def digitsValue (radix : Nat) (z : JSString) : Nat :=
  z.foldl (fun acc c => acc * radix + (digitValue c).getD 0) 0

/-- `ToString` applied to a possibly `undefined` string argument. -/
def toStringJS : Option JSString → JSString
  | some s => s
  | none => "undefined".toList

/-- ECMAScript `parseInt(string, radix)`: leading white space is skipped, an
optional sign is read, for radix 16 (or 0) a `0x`/`0X` prefix is dropped, then the
longest prefix of radix digits is read; `NaN` when that prefix is empty or the
radix is outside 2..36, otherwise the double nearest to the signed value of the
digits (`Infinity` for a value too large for a double). -/
def parseInt (string : Option JSString) (radix : Nat) : Number :=
  let inputString := toStringJS string
  let s := trimStart inputString
  let sign : Int := if s.head? = some '-' then -1 else 1
  let s := if s.head? = some '+' ∨ s.head? = some '-' then s.tail else s
  if radix ≠ 0 ∧ (radix < 2 ∨ 36 < radix) then none
  else
    let stripPrefix := radix = 0 ∨ radix = 16
    let hasPrefix := stripPrefix ∧ (s.take 2 = ['0', 'x'] ∨ s.take 2 = ['0', 'X'])
    let r := if radix = 0 then (if hasPrefix then 16 else 10) else radix
    let s := if hasPrefix then s.drop 2 else s
    let z := s.takeWhile (isRadixDigit r)
    if z = [] then none else some (toDouble (sign * (digitsValue r z : Int)))

/-- The character class `[0-9a-fA-F]`. -/
def isHexDigit (c : Char) : Bool :=
  let n := c.toNat
  (48 ≤ n && n ≤ 57) || (97 ≤ n && n ≤ 102) || (65 ≤ n && n ≤ 70)

/-- The first replacement of source line 54,
`color.replace(/\\x([0-9a-fA-F]{2})/g, (_, hex) => hex)`: scanning from the left,
each backslash, `x`, hex digit, hex digit is replaced by its two hex digits and
the scan resumes after the match. -/
def replaceEscapes : JSString → JSString
  | [] => []
  | c :: x :: h1 :: h2 :: rest2 =>
    if c = Char.ofNat 92 ∧ x = 'x' ∧ isHexDigit h1 = true ∧ isHexDigit h2 = true then
      h1 :: h2 :: replaceEscapes rest2
    else c :: replaceEscapes (x :: h1 :: h2 :: rest2)
  | c :: rest => c :: replaceEscapes rest

/-- The second replacement of source line 54, `.replace(/[^0-9a-fA-F]/g, '')`. -/
def stripNonHex (s : JSString) : JSString := s.filter isHexDigit

/-! ## Events -/

/-- The object `{ r, g, b, alpha }` of source line 62. -/
structure RGBA where
  r : Number
  g : Number
  b : Number
  alpha : Int
  deriving DecidableEq, Repr

/-- The object `{ id, x, y, rgbaColor }` pushed at source line 64. -/
structure Event where
  id : Int
  x : Int
  y : Int
  rgbaColor : RGBA
  deriving DecidableEq, Repr

/-- The body of the `try` block, source lines 54-62: the colour conversion, which
throws `Invalid color length` unless exactly six hex digits remain. -/
def convertColor (color : JSString) : Except String RGBA :=
  let sanitizedColor := stripNonHex (replaceEscapes color)
  if sanitizedColor.length ≠ 6 then
    Except.error ("Invalid color length: " ++ String.mk sanitizedColor)
  else
    let r := parseInt (some (slice sanitizedColor 0 2)) 16
    let g := parseInt (some (slice sanitizedColor 2 4)) 16
    let b := parseInt (some (slice sanitizedColor 4 6)) 16
    Except.ok { r := r, g := g, b := b, alpha := 1 }

/-- One iteration of the loop at source lines 32-71: `none` when the iteration
ends in `continue` without a push, `some e` when it pushes `e`. -/
def decodeLine (line : JSString) : Option Event :=
  let parts := split ',' line
  let id := parseInt parts[0]? 10
  let x := parseInt parts[2]? 10
  let y := parseInt parts[3]? 10
  let color := parts[6]?.map trim
  let id : Int :=
    match id with
    | none => 1
    | some v => if v < 1 then 1 else v
  match x, y, color with
  | some x, some y, some color =>
    if x < 0 ∨ x ≥ CANVAS_SIZE ∨ y < 0 ∨ y ≥ CANVAS_SIZE ∨ color = [] then none
    else
      match convertColor color with
      | Except.ok rgbaColor => some { id := id, x := x, y := y, rgbaColor := rgbaColor }
      | Except.error _ => none
  | _, _, _ => none

/-- The comparator of source line 74, `(a, b) => a.id - b.id`; it returns `NaN` for
two ids that are both `Infinity`. -/
def compareFn (a b : Event) : Number := sub a.id b.id

/-- ECMAScript `SortCompare` for a comparator: the number the comparator returns,
a `NaN` counting as `+0`. -/
def sortCompare {α : Type} (cmp : α → α → Number) (a b : α) : Int :=
  match cmp a b with
  | none => 0
  | some v => v

/-- Insertion of `a` in front of the first element that does not compare below it. -/
def insertSorted {α : Type} (cmp : α → α → Number) (a : α) : List α → List α
  | [] => [a]
  | b :: l => if sortCompare cmp a b ≤ 0 then a :: b :: l else b :: insertSorted cmp a l

/-- `Array.prototype.sort(compareFn)`.  The language requires the sort to be
stable, and for a consistent comparator a stable sort has a single possible
result, computed here by insertion from the right. -/
def sort {α : Type} (cmp : α → α → Number) (l : List α) : List α :=
  l.foldr (insertSorted cmp) []

/-- The accumulation loop of `parseAndSortCSV`, source lines 14 and 32-71: the
array `lines` after all input lines have been processed. -/
def collect (input : List JSString) : List Event :=
  input.foldl
    (fun lines line =>
      match decodeLine line with
      | some e => lines ++ [e]
      | none => lines)
    []

/-- Source lines 13-77, on the sequence of lines that `readline` delivers. -/
def parseAndSortCSV (input : List JSString) : List Event :=
  sort compareFn (collect input)

/-! ## Reading a colour the way the specification words it -/

/-- The value of one hexadecimal digit, in either case, as the specification
reads a colour; 0 for any other character. -/
def hexDigitValue (c : Char) : Nat :=
  if '0' ≤ c ∧ c ≤ '9' then c.toNat - '0'.toNat
  else if 'a' ≤ c ∧ c ≤ 'f' then 10 + (c.toNat - 'a'.toNat)
  else if 'A' ≤ c ∧ c ≤ 'F' then 10 + (c.toNat - 'A'.toNat)
  else 0

/-- A string of hexadecimal digits read as a base-16 number, most significant
digit first. -/
def readHex : JSString → Nat
  | [] => 0
  | c :: cs => hexDigitValue c * 16 ^ cs.length + readHex cs

/-! ## The canvas buffer -/

/-- A Node `Buffer`: its length and the byte read at each index.  Only indices
below `length` are ever read or written. -/
structure Buffer where
  length : Nat
  byteAt : Nat → Nat

/-- `Buffer.alloc(size, fill)`. -/
def Buffer.alloc (size : Int) (fill : Nat) : Buffer :=
  { length := size.toNat, byteAt := fun _ => fill % 256 }

/-- The conversion `ToUint8` applied to a number stored into a `Buffer`: `NaN`
becomes 0 and an integer is reduced modulo 256. -/
def toUint8 : Number → Nat
  | none => 0
  | some n => (n % 256).toNat

/-- The assignment `buffer[index] = value`: an index outside the buffer writes
nothing. -/
def Buffer.set (buffer : Buffer) (index : Int) (value : Number) : Buffer :=
  if 0 ≤ index ∧ index < buffer.length then
    { buffer with byteAt := fun j => if j = index.toNat then toUint8 value else buffer.byteAt j }
  else buffer

/-- The offset of source line 111, `(y * CANVAS_SIZE + x) * 4`. -/
def pixelIndex (x y : Int) : Int := (y * CANVAS_SIZE + x) * 4

/-- The callback of `chunk.forEach`, source lines 110-116.  `alpha` is an integer,
on which `Math.round` is the identity. -/
def applyEvent (canvasBuffer : Buffer) (e : Event) : Buffer :=
  let index := pixelIndex e.x e.y
  let canvasBuffer := canvasBuffer.set index e.rgbaColor.r
  let canvasBuffer := canvasBuffer.set (index + 1) e.rgbaColor.g
  let canvasBuffer := canvasBuffer.set (index + 2) e.rgbaColor.b
  canvasBuffer.set (index + 3) (some (e.rgbaColor.alpha * 255))

/-- `chunk.forEach(...)`: the events of a chunk applied in order. -/
def applyEvents (canvasBuffer : Buffer) (chunk : List Event) : Buffer :=
  chunk.foldl applyEvent canvasBuffer

/-- The canvas of source line 81, `Buffer.alloc(CANVAS_SIZE * CANVAS_SIZE * 4, 255)`. -/
def initialCanvas : Buffer := Buffer.alloc (CANVAS_SIZE * CANVAS_SIZE * 4) 255

/-- The four bytes of the pixel at `(x, y)`. -/
def pixelAt (canvasBuffer : Buffer) (x y : Int) : Nat × Nat × Nat × Nat :=
  let index := (pixelIndex x y).toNat
  (canvasBuffer.byteAt index, canvasBuffer.byteAt (index + 1),
    canvasBuffer.byteAt (index + 2), canvasBuffer.byteAt (index + 3))

/-- A placement event of the data model: coordinates inside the canvas, the three
colour channels bytes, and the fixed `alpha` of 1. -/
def Event.inRange (e : Event) : Prop :=
  0 ≤ e.x ∧ e.x < CANVAS_SIZE ∧ 0 ≤ e.y ∧ e.y < CANVAS_SIZE ∧
  ∃ r g b : Nat, r ≤ 255 ∧ g ≤ 255 ∧ b ≤ 255 ∧
    e.rgbaColor = { r := some (r : Int), g := some (g : Int), b := some (b : Int), alpha := 1 }

/-! ## The frame loop -/

/-- A PNG payload.  The encoding is lossless, so a frame is identified with the raw
pixels it was made from. -/
structure Frame where
  raw : Buffer

/-- An operation on `ffmpegProcess.stdin`. -/
inductive StdinOp where
  | write (frame : Frame)
  | endInput

/-- How the encoder process terminates: a `close` event with an exit code, or an
`error` event. -/
inductive EncoderEnd where
  | close (code : Int)
  | error
  deriving DecidableEq, Repr

/-- What `generateTimelapse` can throw. -/
inductive TimelapseError where
  | serialise (frameIndex : Nat)
  | exitCode (code : Int)
  | process
  deriving DecidableEq, Repr

/-- The environment of a run: which PNG serialisations reject (by 0-based call
index), and how the encoder process ends. -/
structure Env where
  sharpFails : Nat → Bool
  encoderEnd : EncoderEnd

/-- The observable state of a run of `generateTimelapse`: the canvas, the raw
buffers handed to `sharp` so far, and the operations performed on the encoder's
input stream so far, both in order. -/
structure Run where
  canvasBuffer : Buffer
  sharpCalls : List Buffer
  stdin : List StdinOp

/-- The `for` loop of source lines 106-126, from index `i`.  `none` when the fuel
runs out, otherwise the final state with `Except.error` if an `await sharp(...)`
rejected. -/
def frameLoop (env : Env) (pixels : List Event) (pixelsPerFrame : Int) :
    Nat → Int → Run → Option (Run × Except TimelapseError Unit)
  | 0, _, _ => none
  | fuel + 1, i, run =>
    if i < pixels.length then
      let chunk := slice pixels i (i + pixelsPerFrame)
      let canvasBuffer := applyEvents run.canvasBuffer chunk
      let call := run.sharpCalls.length
      let run := { run with canvasBuffer := canvasBuffer,
                            sharpCalls := run.sharpCalls ++ [canvasBuffer] }
      if env.sharpFails call then some (run, Except.error (TimelapseError.serialise call))
      else
        let frame : Frame := { raw := canvasBuffer }
        frameLoop env pixels pixelsPerFrame fuel (i + pixelsPerFrame)
          { run with stdin := run.stdin ++ [StdinOp.write frame] }
    else some (run, Except.ok ())

/-- Source lines 80-149, for an encoder whose end event is emitted once the
listeners of lines 131-143 are attached, so that they observe it.  After the loop the
input stream is ended and the encoder awaited; every error goes through the `catch`,
which ends the input stream (again) and rethrows.  An end event emitted earlier is
the matter of `generateTimelapseTimed`, which has this function as its case
`EncoderTiming.afterLoop`; the loop, `frameLoop`, is the same in both. -/
def generateTimelapse (env : Env) (pixels : List Event) (pixelsPerFrame : Int)
    (fuel : Nat) : Option (Run × Except TimelapseError Unit) :=
  let start : Run := { canvasBuffer := initialCanvas, sharpCalls := [], stdin := [] }
  match frameLoop env pixels pixelsPerFrame fuel 0 start with
  | none => none
  | some (run, Except.error err) =>
    some ({ run with stdin := run.stdin ++ [StdinOp.endInput] }, Except.error err)
  | some (run, Except.ok ()) =>
    let run := { run with stdin := run.stdin ++ [StdinOp.endInput] }
    match env.encoderEnd with
    | EncoderEnd.close code =>
      if code = 0 then some (run, Except.ok ())
      else
        some ({ run with stdin := run.stdin ++ [StdinOp.endInput] },
          Except.error (TimelapseError.exitCode code))
    | EncoderEnd.error =>
      some ({ run with stdin := run.stdin ++ [StdinOp.endInput] },
        Except.error TimelapseError.process)

/-! ## The loop body with its exceptions, and the validation of the specification -/

/-- The body of the loop at source lines 33-70 as a computation that may throw,
acting on the array `lines`: the `continue` of line 48 leaves `lines` as it is, and
the `try`/`catch` of lines 52-68 is `tryCatch`, whose handler is the `continue` of
line 67. -/
def loopBody (lines : List Event) (line : JSString) : Except String (List Event) :=
  let parts := split ',' line
  let id := parseInt parts[0]? 10
  let x := parseInt parts[2]? 10
  let y := parseInt parts[3]? 10
  let color := parts[6]?.map trim
  let id : Int :=
    match id with
    | none => 1
    | some v => if v < 1 then 1 else v
  match x, y, color with
  | some x, some y, some color =>
    if x < 0 ∨ x ≥ CANVAS_SIZE ∨ y < 0 ∨ y ≥ CANVAS_SIZE ∨ color = [] then Except.ok lines
    else
      tryCatch
        (do
          let rgbaColor ← convertColor color
          pure (lines ++ [{ id := id, x := x, y := y, rgbaColor := rgbaColor }]))
        (fun _ => pure lines)
  | _, _, _ => Except.ok lines

/-- The coordinate and colour validation as the specification words it: fields 2
and 3 read as integers in `[0, CANVAS_SIZE)`, field 6 present, non-empty once
trimmed, and exactly six hex digits after normalisation. -/
def passesValidation (line : JSString) : Bool :=
  let parts := split ',' line
  (match parseInt parts[2]? 10 with
    | some x => decide (0 ≤ x ∧ x < CANVAS_SIZE)
    | none => false) &&
  (match parseInt parts[3]? 10 with
    | some y => decide (0 ≤ y ∧ y < CANVAS_SIZE)
    | none => false) &&
  (match parts[6]? with
    | some field6 =>
      decide (trim field6 ≠ []) &&
        decide ((stripNonHex (replaceEscapes (trim field6))).length = 6)
    | none => false)

/-! ## Batches and the encoder's input stream -/

/-- The chunk of iteration `j` of the loop of source lines 106-107, where
`i = j * pixelsPerFrame`. -/
def batch (pixels : List Event) (pixelsPerFrame : Int) (j : Nat) : List Event :=
  slice pixels (j * pixelsPerFrame) (j * pixelsPerFrame + pixelsPerFrame)

/-- Whether an operation on the input stream is a write. -/
def StdinOp.isWrite : StdinOp → Bool
  | StdinOp.write _ => true
  | StdinOp.endInput => false

/-- The number of `stdin.write` calls of a run. -/
def writeCount (run : Run) : Nat := (run.stdin.filter StdinOp.isWrite).length

/-- How the encoder's input stream behaves during a run, write by write (0-based):
what `stdin.write` returns (`false` when the stream's buffer is full and a writer
is expected to wait for `drain`), and whether the write ends in an `error` event
on the stream. -/
structure StreamEnv where
  writeReturns : Nat → Bool
  writeErrors : Nat → Bool

/-- A run of `generateTimelapse` together with what happens on the stream side: the
values returned by its writes, in order, and the writes whose `error` event ran the
handler of source lines 101-103. -/
structure StreamRun where
  run : Run
  outcome : Except TimelapseError Unit
  returned : List Bool
  handled : List Nat

/-- The function `generateTimelapse` on a given stream.  Source line 123 discards the
value returned by `stdin.write`, and the only listener for `error` on the stream,
source lines 101-103, prints the error: neither reaches the control flow of the
loop, so the run is that of `generateTimelapse`. -/
def generateTimelapseStream (stream : StreamEnv) (env : Env) (pixels : List Event)
    (pixelsPerFrame : Int) (fuel : Nat) : Option StreamRun :=
  match generateTimelapse env pixels pixelsPerFrame fuel with
  | none => none
  | some (run, outcome) =>
    some { run := run, outcome := outcome,
           returned := (List.range (writeCount run)).map stream.writeReturns,
           handled := (List.range (writeCount run)).filter stream.writeErrors }

/-! ## The encoder's end and the listeners of lines 131-143 -/

/-- How a call of `generateTimelapse` ends: its promise resolves, it rejects with an
error, it stays pending for ever, or an exception that nothing catches ends the
process before the promise settles. -/
inductive Outcome where
  | resolved
  | rejected (err : TimelapseError)
  | pending
  | uncaught
  deriving DecidableEq, Repr

/-- The outcome of a run whose encoder end reached the listeners. -/
def Outcome.ofExcept : Except TimelapseError Unit → Outcome
  | Except.ok _ => Outcome.resolved
  | Except.error err => Outcome.rejected err

/-- When the encoder process emits its `close` event: once the listener of source
line 132 is attached, or before, while the loop awaits a serialisation. -/
inductive EncoderTiming where
  | afterLoop
  | duringLoop
  deriving DecidableEq, Repr

/-- Source lines 80-149 with the time at which the encoder ends.  The listeners for
the `close` and `error` events of the encoder process are attached at lines 131-143,
after the loop, and an event emitted before that is not delivered to them.

* No event can be emitted between `spawn` (line 89) and the first `await`: with no
  event (the loop does not run) the listeners are attached in time and the run is
  that of `generateTimelapse`.
* The `error` event of the encoder process reports a failed `spawn` and is emitted
  at once: with at least one event it is emitted during the first `await` of line
  120, where it has no listener, which is an uncaught exception.
* A `close` emitted after the loop is observed as in `generateTimelapse`.
* A `close` emitted during the loop is lost: the loop goes on, a failing
  serialisation still rejects through the `catch`, and otherwise the promise of
  lines 131-143 is awaited and never settles. -/
def generateTimelapseTimed (timing : EncoderTiming) (env : Env) (pixels : List Event)
    (pixelsPerFrame : Int) (fuel : Nat) : Option (Run × Outcome) :=
  let observed :=
    (generateTimelapse env pixels pixelsPerFrame fuel).map
      (fun res => (res.1, Outcome.ofExcept res.2))
  let start : Run := { canvasBuffer := initialCanvas, sharpCalls := [], stdin := [] }
  if pixels.length = 0 then observed
  else
    match env.encoderEnd with
    | EncoderEnd.error =>
      if fuel = 0 then none
      else
        let chunk := slice pixels 0 (0 + pixelsPerFrame)
        let canvasBuffer := applyEvents start.canvasBuffer chunk
        some ({ start with canvasBuffer := canvasBuffer,
                           sharpCalls := start.sharpCalls ++ [canvasBuffer] },
          Outcome.uncaught)
    | EncoderEnd.close _ =>
      match timing with
      | EncoderTiming.afterLoop => observed
      | EncoderTiming.duringLoop =>
        match frameLoop env pixels pixelsPerFrame fuel 0 start with
        | none => none
        | some (run, Except.error err) =>
          some ({ run with stdin := run.stdin ++ [StdinOp.endInput] }, Outcome.rejected err)
        | some (run, Except.ok ()) =>
          some ({ run with stdin := run.stdin ++ [StdinOp.endInput] }, Outcome.pending)

/-! ## The top level -/

/-- Source line 10. -/
def OUTPUT_VIDEO : String := "timelapse.mkv"

/-- What can reject `main()`: a failure to read the input file inside
`parseAndSortCSV`, or an error thrown by `generateTimelapse`. -/
inductive MainError where
  | readFile
  | timelapse (err : TimelapseError)
  deriving DecidableEq, Repr

/-- A line printed by `console.log` or `console.error` at source lines 153-166, or
the report that the runtime prints for an uncaught exception.  What the listener of
lines 101-103 prints for an error of the input stream is not part of this log. -/
inductive ConsoleLine where
  | log (text : String)
  | error (err : MainError)
  | uncaughtException
  deriving DecidableEq, Repr

/-- Source line 155, `parseInt(process.argv[2], 10) || 2`: `NaN` and `0` are the
falsy numbers. -/
def pixelsPerFrameArg (arg : Option JSString) : Int :=
  match parseInt arg 10 with
  | none => 2
  | some v => if v = 0 then 2 else v

/-- How the call `main()` ends: as `generateTimelapse` does, a failure to read the
input file being one more rejection. -/
inductive MainEnd where
  | resolved
  | rejected (err : MainError)
  | pending
  | uncaught
  deriving DecidableEq, Repr

/-- Source lines 152-164.  `file` holds the lines of `./data/pixels.csv`, or `none`
when reading the file fails, in which case `parseAndSortCSV` rejects.  The result is
what `main` printed and how the call ended; `none` when `generateTimelapse` runs out
of fuel. -/
def main (timing : EncoderTiming) (arg : Option JSString) (file : Option (List JSString))
    (env : Env) (fuel : Nat) : Option (List ConsoleLine × MainEnd) :=
  let pixelsPerFrame := pixelsPerFrameArg arg
  let console := [ConsoleLine.log "Parsing and sorting CSV..."]
  match file with
  | none => some (console, MainEnd.rejected MainError.readFile)
  | some lines =>
    let pixels := parseAndSortCSV lines
    let console := console ++ [ConsoleLine.log "Generating timelapse..."]
    match generateTimelapseTimed timing env pixels pixelsPerFrame fuel with
    | none => none
    | some (_, Outcome.rejected err) =>
      some (console, MainEnd.rejected (MainError.timelapse err))
    | some (_, Outcome.pending) => some (console, MainEnd.pending)
    | some (_, Outcome.uncaught) => some (console, MainEnd.uncaught)
    | some (_, Outcome.resolved) =>
      some (console ++ [ConsoleLine.log ("Timelapse saved to " ++ OUTPUT_VIDEO)],
        MainEnd.resolved)

/-- How the program ends: everything printed, and the exit status of the process. -/
structure ProgramEnd where
  console : List ConsoleLine
  exitStatus : Int

/-- Source line 166, `main().catch(err => console.error(err))`.  A rejection is
handled by printing it; nothing in the source calls `process.exit` or assigns
`process.exitCode`, so the process then ends with the default status 0, as it does
when `main()` resolves and when it stays pending with nothing left to run.  An
uncaught exception is reported by the runtime, which ends the process with status
1. -/
def program (timing : EncoderTiming) (arg : Option JSString)
    (file : Option (List JSString)) (env : Env) (fuel : Nat) : Option ProgramEnd :=
  match main timing arg file env fuel with
  | none => none
  | some (console, MainEnd.resolved) => some { console := console, exitStatus := 0 }
  | some (console, MainEnd.rejected err) =>
    some { console := console ++ [ConsoleLine.error err], exitStatus := 0 }
  | some (console, MainEnd.pending) => some { console := console, exitStatus := 0 }
  | some (console, MainEnd.uncaught) =>
    some { console := console ++ [ConsoleLine.uncaughtException], exitStatus := 1 }

/-! ## The collator: `parseAndSortCSV` -/

theorem collect_fold_eq (input : List JSString) (acc : List Event) :
    input.foldl
        (fun lines line =>
          match decodeLine line with
          | some e => lines ++ [e]
          | none => lines)
        acc
      = acc ++ input.filterMap decodeLine := by
  induction input generalizing acc with
  | nil => simp
  | cons line rest ih =>
    simp only [List.foldl_cons, List.filterMap_cons]
    cases h : decodeLine line with
    | none => simpa using ih acc
    | some e => simpa using ih (acc ++ [e])

theorem collect_eq_filterMap (input : List JSString) :
    collect input = input.filterMap decodeLine := by
  simpa [collect] using collect_fold_eq input []

/-! ## Doubles -/

theorem infinity_eq : infinity = 2 ^ 1024 := by
  norm_num [infinity]

theorem infinity_toNat_pos : 9007199254740992 < infinity.toNat := by
  decide

theorem two_pow_53 : (2 : Nat) ^ 53 = 9007199254740992 := by
  norm_num

theorem roundNat_small (n : Nat) (h : n < 9007199254740992) : roundNat n = n := by
  unfold roundNat
  rw [if_pos (by rw [two_pow_53]; exact h)]

theorem toDouble_small (v : Int) (h1 : -9007199254740992 < v) (h2 : v < 9007199254740992) :
    toDouble v = v := by
  unfold toDouble
  rw [roundNat_small _ (by omega)]
  split_ifs <;> omega

theorem bitLength_le (fuel : Nat) : ∀ n : Nat, 0 < n → 2 ^ (bitLength fuel n - 1) ≤ n := by
  induction fuel with
  | zero => intro n hn; simpa [bitLength] using hn
  | succ fuel ih =>
    intro n hn
    rw [bitLength, if_neg (by omega), Nat.add_sub_cancel]
    by_cases h2 : n / 2 = 0
    · have hz : bitLength fuel (n / 2) = 0 := by
        rw [h2]
        cases fuel with
        | zero => rfl
        | succ f => simp [bitLength]
      rw [hz]; simpa using hn
    · have h := ih (n / 2) (by omega)
      by_cases hb : bitLength fuel (n / 2) = 0
      · rw [hb]; simpa using hn
      · have e : bitLength fuel (n / 2) = (bitLength fuel (n / 2) - 1) + 1 := by omega
        rw [e, pow_succ]
        omega

theorem roundNat_pos (n : Nat) (h : 0 < n) : 0 < roundNat n := by
  unfold roundNat
  have hinf := infinity_toNat_pos
  split_ifs with h1 h2
  · exact h
  · omega
  · simp only []
    have hb := bitLength_le 1024 n h
    have he : 2 ^ (bitLength 1024 n - 53) ≤ n :=
      le_trans (Nat.pow_le_pow_right (by omega) (by omega)) hb
    have hq : 0 < n / 2 ^ (bitLength 1024 n - 53) :=
      Nat.div_pos he (pow_pos (by omega) _)
    refine lt_min (Nat.mul_pos ?_ (pow_pos (by omega) _)) (by omega)
    split_ifs <;> omega

theorem roundNat_le (n : Nat) : roundNat n ≤ infinity.toNat := by
  unfold roundNat
  have hinf := infinity_toNat_pos
  split_ifs with h1 h2
  · rw [two_pow_53] at h1; omega
  · exact le_refl _
  · exact min_le_right _ _

theorem roundNat_zero : roundNat 0 = 0 := by
  decide

theorem toDouble_range (v : Int) : -infinity ≤ toDouble v ∧ toDouble v ≤ infinity := by
  have h := roundNat_le v.natAbs
  have hpos : 0 ≤ infinity := by decide
  have e : ((infinity.toNat : Nat) : Int) = infinity := Int.toNat_of_nonneg hpos
  unfold toDouble
  split_ifs <;> omega

theorem toDouble_nonpos_iff (d : Int) : toDouble d ≤ 0 ↔ d ≤ 0 := by
  unfold toDouble
  by_cases h : d < 0
  · rw [if_pos h]
    constructor
    · intro _; omega
    · intro _; omega
  · rw [if_neg h]
    constructor
    · intro hr
      by_contra hd
      have := roundNat_pos d.natAbs (by omega)
      omega
    · intro hd
      have e : d.natAbs = 0 := by omega
      rw [e, roundNat_zero]
      simp

/-- For ids that are doubles or infinite, the sort compares as the order of the
ids does. -/
theorem sortCompare_le_iff (a b : Event)
    (ha : -infinity ≤ a.id ∧ a.id ≤ infinity) (hb : -infinity ≤ b.id ∧ b.id ≤ infinity) :
    sortCompare compareFn a b ≤ 0 ↔ a.id ≤ b.id := by
  have hpos : 0 < infinity := by decide
  unfold sortCompare compareFn sub
  by_cases h1 : a.id = infinity
  · rw [if_pos h1]
    by_cases h2 : b.id = infinity
    · rw [if_pos h2]
      simp only []
      omega
    · rw [if_neg h2]
      simp only []
      omega
  · rw [if_neg h1]
    by_cases h3 : a.id = -infinity
    · rw [if_pos h3]
      by_cases h4 : b.id = -infinity
      · rw [if_pos h4]
        simp only []
        omega
      · rw [if_neg h4]
        simp only []
        omega
    · rw [if_neg h3]
      by_cases h5 : b.id = infinity
      · rw [if_pos h5]
        simp only []
        omega
      · rw [if_neg h5]
        by_cases h6 : b.id = -infinity
        · rw [if_pos h6]
          simp only []
          omega
        · rw [if_neg h6]
          simp only []
          rw [toDouble_nonpos_iff]
          omega

theorem parseInt_range (string : Option JSString) (radix : Nat) (v : Int)
    (h : parseInt string radix = some v) : -infinity ≤ v ∧ v ≤ infinity := by
  unfold parseInt at h
  simp only [] at h
  split_ifs at h <;>
    (rw [Option.some.injEq] at h
     rw [← h]
     exact toDouble_range _)

/-! ## The sort -/

theorem insertSorted_perm (a : Event) (l : List Event) :
    (insertSorted compareFn a l).Perm (a :: l) := by
  induction l with
  | nil => simp [insertSorted]
  | cons b l ih =>
    by_cases h : sortCompare compareFn a b ≤ 0
    · simp [insertSorted, h]
    · simp only [insertSorted, h, if_false]
      exact (ih.cons b).trans (List.Perm.swap a b l)

theorem sort_perm (l : List Event) : (sort compareFn l).Perm l := by
  induction l with
  | nil => simp [sort]
  | cons a l ih =>
    have h : sort compareFn (a :: l) = insertSorted compareFn a (sort compareFn l) := rfl
    rw [h]
    exact (insertSorted_perm a _).trans (ih.cons a)

theorem insertSorted_pairwise (a : Event) (l : List Event)
    (ha : -infinity ≤ a.id ∧ a.id ≤ infinity)
    (hr : ∀ e ∈ l, -infinity ≤ e.id ∧ e.id ≤ infinity)
    (hl : l.Pairwise (fun u v => u.id ≤ v.id)) :
    (insertSorted compareFn a l).Pairwise (fun u v => u.id ≤ v.id) := by
  induction l with
  | nil => simp [insertSorted]
  | cons b l ih =>
    rw [List.pairwise_cons] at hl
    have hb := hr b (List.mem_cons_self b l)
    have hr2 : ∀ e ∈ l, -infinity ≤ e.id ∧ e.id ≤ infinity :=
      fun e he => hr e (List.mem_cons_of_mem b he)
    by_cases h : sortCompare compareFn a b ≤ 0
    · simp only [insertSorted, h, if_true]
      have hab : a.id ≤ b.id := (sortCompare_le_iff a b ha hb).1 h
      refine List.pairwise_cons.2 ⟨?_, List.pairwise_cons.2 hl⟩
      intro c hc
      rcases List.mem_cons.1 hc with rfl | hc
      · exact hab
      · exact le_trans hab (hl.1 c hc)
    · simp only [insertSorted, h, if_false]
      have hba : b.id ≤ a.id := by
        have := (sortCompare_le_iff a b ha hb).not.1 h
        omega
      refine List.pairwise_cons.2 ⟨?_, ih hr2 hl.2⟩
      intro c hc
      rcases List.mem_cons.1 ((insertSorted_perm a l).mem_iff.1 hc) with rfl | hc
      · exact hba
      · exact hl.1 c hc

theorem sort_pairwise (l : List Event)
    (hr : ∀ e ∈ l, -infinity ≤ e.id ∧ e.id ≤ infinity) :
    (sort compareFn l).Pairwise (fun u v => u.id ≤ v.id) := by
  induction l with
  | nil => simp [sort]
  | cons a l ih =>
    have hr2 : ∀ e ∈ l, -infinity ≤ e.id ∧ e.id ≤ infinity :=
      fun e he => hr e (List.mem_cons_of_mem a he)
    exact insertSorted_pairwise a _ (hr a (List.mem_cons_self a l))
      (fun e he => hr2 e ((sort_perm l).mem_iff.1 he)) (ih hr2)

theorem insertSorted_filter (k : Int) (a : Event) (l : List Event)
    (ha : -infinity ≤ a.id ∧ a.id ≤ infinity)
    (hr : ∀ e ∈ l, -infinity ≤ e.id ∧ e.id ≤ infinity) :
    (insertSorted compareFn a l).filter (fun e => decide (e.id = k))
      = (a :: l).filter (fun e => decide (e.id = k)) := by
  induction l with
  | nil => simp [insertSorted]
  | cons b l ih =>
    have hb := hr b (List.mem_cons_self b l)
    have ih := ih (fun e he => hr e (List.mem_cons_of_mem b he))
    by_cases h : sortCompare compareFn a b ≤ 0
    · simp [insertSorted, h]
    · simp only [insertSorted, h, if_false]
      have hba : b.id < a.id := by
        have := (sortCompare_le_iff a b ha hb).not.1 h
        omega
      by_cases hak : a.id = k
      · have hbk : ¬ b.id = k := by omega
        rw [List.filter_cons_of_neg (by simpa using hbk), ih]
        simp [List.filter_cons, hak, hbk]
      · rw [List.filter_cons, ih]
        simp [List.filter_cons, hak]

theorem sort_filter (k : Int) (l : List Event)
    (hr : ∀ e ∈ l, -infinity ≤ e.id ∧ e.id ≤ infinity) :
    (sort compareFn l).filter (fun e => decide (e.id = k))
      = l.filter (fun e => decide (e.id = k)) := by
  induction l with
  | nil => simp [sort]
  | cons a l ih =>
    have hr2 : ∀ e ∈ l, -infinity ≤ e.id ∧ e.id ≤ infinity :=
      fun e he => hr e (List.mem_cons_of_mem a he)
    have h : sort compareFn (a :: l) = insertSorted compareFn a (sort compareFn l) := rfl
    rw [h, insertSorted_filter k a _ (hr a (List.mem_cons_self a l))
      (fun e he => hr2 e ((sort_perm l).mem_iff.1 he)),
      List.filter_cons, List.filter_cons, ih hr2]

/-- When one loop iteration pushes an event, and which one: every test of source
line 46 passes and the colour conversion does not throw. -/
theorem decodeLine_some_iff (line : JSString) (e : Event) :
    decodeLine line = some e ↔
      ∃ x y raw rgba,
        parseInt (split ',' line)[2]? 10 = some x ∧
        parseInt (split ',' line)[3]? 10 = some y ∧
        (split ',' line)[6]? = some raw ∧
        0 ≤ x ∧ x < CANVAS_SIZE ∧ 0 ≤ y ∧ y < CANVAS_SIZE ∧ trim raw ≠ [] ∧
        convertColor (trim raw) = Except.ok rgba ∧
        e = { id := (match parseInt (split ',' line)[0]? 10 with
                     | none => 1
                     | some v => if v < 1 then 1 else v),
              x := x, y := y, rgbaColor := rgba } := by
  unfold decodeLine
  simp only []
  cases hx : parseInt (split ',' line)[2]? 10 with
  | none => simp
  | some x =>
    cases hy : parseInt (split ',' line)[3]? 10 with
    | none => simp
    | some y =>
      cases hc : (split ',' line)[6]? with
      | none => simp
      | some raw =>
        simp only [Option.map_some']
        by_cases hbad : x < 0 ∨ x ≥ CANVAS_SIZE ∨ y < 0 ∨ y ≥ CANVAS_SIZE ∨ trim raw = []
        · rw [if_pos hbad]
          constructor
          · intro h; cases h
          · rintro ⟨x', y', raw', rgba, h1, h2, h3, h4, h5, h6, h7, h8, -, -⟩
            cases h1; cases h2; cases h3
            rcases hbad with h | h | h | h | h
            · omega
            · omega
            · omega
            · omega
            · exact absurd h h8
        · rw [if_neg hbad]
          simp only [not_or, not_lt, ge_iff_le, not_le] at hbad
          obtain ⟨hb1, hb2, hb3, hb4, hb5⟩ := hbad
          cases hcc : convertColor (trim raw) with
          | error msg =>
            constructor
            · intro h; cases h
            · rintro ⟨x', y', raw', rgba, h1, h2, h3, -, -, -, -, -, h9, -⟩
              cases h1; cases h2; cases h3
              rw [hcc] at h9; cases h9
          | ok rgba =>
            constructor
            · intro h
              refine ⟨x, y, raw, rgba, rfl, rfl, rfl, hb1, hb2, hb3, hb4, hb5, hcc, ?_⟩
              simpa using h.symm
            · rintro ⟨x', y', raw', rgba', h1, h2, h3, -, -, -, -, -, h9, h10⟩
              cases h1; cases h2; cases h3
              rw [hcc] at h9; cases h9
              simpa using h10.symm

/-- The id of a decoded event is a double of at least 1, or `Infinity`. -/
theorem decodeLine_id_range (line : JSString) (e : Event) (h : decodeLine line = some e) :
    1 ≤ e.id ∧ e.id ≤ infinity := by
  obtain ⟨x, y, raw, rgba, -, -, -, -, -, -, -, -, -, rfl⟩ := (decodeLine_some_iff line e).1 h
  have hinf : 1 ≤ infinity := by decide
  cases hp : parseInt (split ',' line)[0]? 10 with
  | none => exact ⟨le_refl _, hinf⟩
  | some v =>
    have hv := parseInt_range _ _ v hp
    simp only []
    split_ifs
    · exact ⟨le_refl _, hinf⟩
    · exact ⟨by omega, hv.2⟩

theorem decoded_id_range (input : List JSString) :
    ∀ e ∈ input.filterMap decodeLine, -infinity ≤ e.id ∧ e.id ≤ infinity := by
  intro e he
  obtain ⟨line, -, hline⟩ := List.mem_filterMap.1 he
  have h := decodeLine_id_range line e hline
  have hinf : 1 ≤ infinity := by decide
  exact ⟨by omega, h.2⟩

set_option maxRecDepth 100000 in
/-- The ids the program holds are doubles: `9007199254740993` is read as
`9007199254740992`, a run of 400 nines as `Infinity`; the comparator gives `NaN` on
two infinite ids, which the sort takes for equal. -/
theorem id_is_a_double :
    parseInt (some "9007199254740993".toList) 10 = some 9007199254740992 ∧
    parseInt (some "9999999999999999999999999999999999999999999999999999999999999999999999999999999999999999999999999999999999999999999999999999999999999999999999999999999999999999999999999999999999999999999999999999999999999999999999999999999999999999999999999999999999999999999999999999999999999999999999999999999999999999999999999999999999999999999999999999999999999999999999999999999999999999999999999999999999999999".toList) 10 = some infinity ∧
    (decodeLine "9007199254740993,u,10,20,a,b,ffffff".toList).map Event.id
      = some 9007199254740992 ∧
    (∀ a b : Event, a.id = infinity → b.id = infinity →
      compareFn a b = none ∧ sortCompare compareFn a b = 0) ∧
    (parseAndSortCSV ["9007199254740993,u,1,0,a,b,ff0000".toList,
        "9007199254740992,u,0,0,a,b,00ff00".toList]).map (fun e => (e.id, e.x))
      = [(9007199254740992, 1), (9007199254740992, 0)] ∧
    (parseAndSortCSV ["9999999999999999999999999999999999999999999999999999999999999999999999999999999999999999999999999999999999999999999999999999999999999999999999999999999999999999999999999999999999999999999999999999999999999999999999999999999999999999999999999999999999999999999999999999999999999999999999999999999999999999999999999999999999999999999999999999999999999999999999999999999999999999999999999999999999999999,u,2,0,a,b,ff0000".toList,
        "99999999999999999999999999999999999999999999999999999999999999999999999999999999999999999999999999999999999999999999999999999999999999999999999999999999999999999999999999999999999999999999999999999999999999999999999999999999999999999999999999999999999999999999999999999999999999999999999999999999999999999999999999999999999999999999999999999999999999999999999999999999999999999999999999999999999999999,u,1,0,a,b,00ff00".toList, "7,u,0,0,a,b,0000ff".toList]).map
        (fun e => (e.id, e.x))
      = [(7, 0), (infinity, 2), (infinity, 1)] := by
  refine ⟨by decide, by decide, by decide, ?_, by decide, by decide⟩
  intro a b ha hb
  simp [compareFn, sortCompare, sub, ha, hb]

/-- C1: the result of `parseAndSortCSV` is the stable sort by id of the events
decoded from the input lines: it is a permutation of the decoded events, ids are
non-decreasing along it, and for every id the events carrying that id appear in
the same order as their lines do in the input.  The ids are those the events
carry, doubles or `Infinity`, compared as the comparator `a.id - b.id` and the sort
compare them. -/
theorem parseAndSortCSV_stable_sort (input : List JSString) :
    (parseAndSortCSV input).Perm (input.filterMap decodeLine) ∧
    (parseAndSortCSV input).Pairwise (fun a b => a.id ≤ b.id) ∧
    ∀ k : Int, (parseAndSortCSV input).filter (fun e => decide (e.id = k))
      = (input.filterMap decodeLine).filter (fun e => decide (e.id = k)) := by
  have hr := decoded_id_range input
  unfold parseAndSortCSV
  rw [collect_eq_filterMap]
  exact ⟨sort_perm _, sort_pairwise _ hr, fun k => sort_filter k _ hr⟩

theorem mem_parseAndSortCSV (input : List JSString) (e : Event) :
    e ∈ parseAndSortCSV input ↔ ∃ line ∈ input, decodeLine line = some e := by
  unfold parseAndSortCSV
  rw [(sort_perm _).mem_iff, collect_eq_filterMap, List.mem_filterMap]

theorem parseAndSortCSV_skip (pre post : List JSString) (line : JSString)
    (h : decodeLine line = none) :
    parseAndSortCSV (pre ++ line :: post) = parseAndSortCSV (pre ++ post) := by
  unfold parseAndSortCSV
  rw [collect_eq_filterMap, collect_eq_filterMap, List.filterMap_append,
    List.filterMap_append, List.filterMap_cons, h]

/-- C2: every event returned by `parseAndSortCSV` has `0 ≤ x < 1000` and
`0 ≤ y < 1000`; and a line whose field 2 or field 3 is read by `parseInt` as `NaN`,
as a value below 0 or as a value of at least 1000 yields no event: the result is
the same as without the line. -/
theorem parseAndSortCSV_coordinates_in_range (input : List JSString) :
    (∀ e ∈ parseAndSortCSV input, 0 ≤ e.x ∧ e.x < 1000 ∧ 0 ≤ e.y ∧ e.y < 1000) ∧
    (∀ line : JSString,
      (parseInt (split ',' line)[2]? 10 = none ∨
        parseInt (split ',' line)[3]? 10 = none ∨
        (∃ v, parseInt (split ',' line)[2]? 10 = some v ∧ (v < 0 ∨ 1000 ≤ v)) ∨
        (∃ v, parseInt (split ',' line)[3]? 10 = some v ∧ (v < 0 ∨ 1000 ≤ v))) →
      decodeLine line = none ∧
      ∀ pre post : List JSString,
        parseAndSortCSV (pre ++ line :: post) = parseAndSortCSV (pre ++ post)) := by
  constructor
  · intro e he
    obtain ⟨line, -, hline⟩ := (mem_parseAndSortCSV input e).1 he
    obtain ⟨x, y, raw, rgba, -, -, -, h1, h2, h3, h4, -, -, rfl⟩ :=
      (decodeLine_some_iff line e).1 hline
    simp only [CANVAS_SIZE] at h2 h4
    exact ⟨h1, h2, h3, h4⟩
  · intro line hbad
    have hnone : decodeLine line = none := by
      cases hd : decodeLine line with
      | none => rfl
      | some e =>
        obtain ⟨x, y, raw, rgba, hx, hy, -, h1, h2, h3, h4, -, -, -⟩ :=
          (decodeLine_some_iff line e).1 hd
        simp only [CANVAS_SIZE] at h2 h4
        rcases hbad with h | h | ⟨v, hv, h⟩ | ⟨v, hv, h⟩
        · rw [hx] at h; cases h
        · rw [hy] at h; cases h
        · rw [hx] at hv; cases hv; omega
        · rw [hy] at hv; cases hv; omega
    exact ⟨hnone, fun pre post => parseAndSortCSV_skip pre post line hnone⟩

/-- C2 at concrete inputs: the event of the line `3,u,10,20,a,b,\x212a1d` is in
range, and the line `7,u,1000,5,a,b,ffffff` (x = 1000) yields no event. -/
theorem parseAndSortCSV_coordinates_in_range_witness :
    ((0 : Int) ≤ 10 ∧ (10 : Int) < 1000 ∧ (0 : Int) ≤ 20 ∧ (20 : Int) < 1000) ∧
    decodeLine "7,u,1000,5,a,b,ffffff".toList = none :=
  ⟨(parseAndSortCSV_coordinates_in_range ["3,u,10,20,a,b,\\x212a1d".toList]).1
      ⟨3, 10, 20, ⟨some 0x21, some 0x2a, some 0x1d, 1⟩⟩ (by decide),
   ((parseAndSortCSV_coordinates_in_range []).2 "7,u,1000,5,a,b,ffffff".toList
      (Or.inr (Or.inr (Or.inl ⟨1000, by decide, Or.inr (by decide)⟩)))).1⟩

/-! ## Colour decoding -/

theorem slice_natCast {α : Type} (l : List α) (a b : Nat) :
    slice l a b = (l.drop a).take (b - a) := by
  unfold slice
  simp only []
  have ha : ¬ ((a : Int) < 0) := by omega
  have hb : ¬ ((b : Int) < 0) := by omega
  rw [if_neg ha, if_neg hb]
  by_cases h : a ≤ l.length
  · have e1 : (min (a : Int) l.length).toNat = a := by omega
    have e2 : (min (b : Int) l.length - min (a : Int) l.length).toNat
        = min (b - a) (l.drop a).length := by
      rw [List.length_drop]; omega
    rw [e1, e2, List.take_eq_take]
    simp
  · have e1 : (min (a : Int) l.length).toNat = l.length := by omega
    rw [e1, List.drop_of_length_le (le_refl _), List.drop_of_length_le (by omega)]
    simp

theorem char_le_iff (a b : Char) : a ≤ b ↔ a.toNat ≤ b.toNat := Iff.rfl

theorem isHexDigit_iff (c : Char) :
    isHexDigit c = true ↔
      (48 ≤ c.toNat ∧ c.toNat ≤ 57) ∨ (97 ≤ c.toNat ∧ c.toNat ≤ 102) ∨
        (65 ≤ c.toNat ∧ c.toNat ≤ 70) := by
  simp [isHexDigit, or_assoc]

theorem isWhiteSpace_of_hex (c : Char) (h : isHexDigit c = true) : isWhiteSpace c = false := by
  rw [isHexDigit_iff] at h
  simp only [isWhiteSpace, Bool.or_eq_false_iff, beq_eq_false_iff_ne, ne_eq,
    Bool.and_eq_false_iff, decide_eq_false_iff_not]
  omega

theorem digitValue_of_hex (c : Char) (h : isHexDigit c = true) :
    digitValue c = some (hexDigitValue c) ∧ hexDigitValue c < 16 := by
  rw [isHexDigit_iff] at h
  have h0 : ('0' : Char).toNat = 48 := rfl
  have h9 : ('9' : Char).toNat = 57 := rfl
  have ha : ('a' : Char).toNat = 97 := rfl
  have hf : ('f' : Char).toNat = 102 := rfl
  have hA : ('A' : Char).toNat = 65 := rfl
  have hF : ('F' : Char).toNat = 70 := rfl
  simp only [digitValue, hexDigitValue, char_le_iff, h0, h9, ha, hf, hA, hF]
  split_ifs <;> first
    | omega
    | exact ⟨by congr 1 <;> omega, by omega⟩

theorem isRadixDigit_of_hex (c : Char) (h : isHexDigit c = true) :
    isRadixDigit 16 c = true := by
  obtain ⟨h1, h2⟩ := digitValue_of_hex c h
  simp [isRadixDigit, h1, h2]

theorem digitsValue_fold_hex (s : JSString) (acc : Nat)
    (hall : ∀ c ∈ s, isHexDigit c = true) :
    s.foldl (fun acc c => acc * 16 + (digitValue c).getD 0) acc
      = acc * 16 ^ s.length + readHex s := by
  induction s generalizing acc with
  | nil => simp [readHex]
  | cons c cs ih =>
    have hc := (digitValue_of_hex c (hall c (List.mem_cons_self c cs))).1
    rw [List.foldl_cons, ih _ (fun d hd => hall d (List.mem_cons_of_mem c hd)), hc]
    simp only [Option.getD_some, readHex, List.length_cons]
    ring

theorem readHex_lt (s : JSString) (hall : ∀ c ∈ s, isHexDigit c = true) :
    readHex s < 16 ^ s.length := by
  induction s with
  | nil => simp [readHex]
  | cons c cs ih =>
    have hc := (digitValue_of_hex c (hall c (List.mem_cons_self c cs))).2
    have := ih (fun d hd => hall d (List.mem_cons_of_mem c hd))
    simp only [readHex, List.length_cons, pow_succ]
    nlinarith

/-- On a non-empty string of hex digits, `parseInt(s, 16)` is the double of the
base-16 value of the whole string. -/
theorem parseInt_hex (s : JSString) (hne : s ≠ [])
    (hall : ∀ c ∈ s, isHexDigit c = true) :
    parseInt (some s) 16 = some (toDouble (readHex s : Int)) := by
  obtain ⟨c, cs, rfl⟩ := List.exists_cons_of_ne_nil hne
  have hc := hall c (List.mem_cons_self c cs)
  have hws := isWhiteSpace_of_hex c hc
  have hc' := (isHexDigit_iff c).1 hc
  have hminus : c ≠ '-' := by rintro rfl; revert hc; decide
  have hplus : c ≠ '+' := by rintro rfl; revert hc; decide
  have hx : ∀ t : JSString, (c :: cs).take 2 ≠ '0' :: 'x' :: t := by
    intro t ht
    cases cs with
    | nil => simp at ht
    | cons d ds =>
      have hd := hall d (by simp)
      simp only [List.take_succ_cons, List.cons.injEq] at ht
      obtain ⟨-, rfl, -⟩ := ht
      revert hd; decide
  have hX : ∀ t : JSString, (c :: cs).take 2 ≠ '0' :: 'X' :: t := by
    intro t ht
    cases cs with
    | nil => simp at ht
    | cons d ds =>
      have hd := hall d (by simp)
      simp only [List.take_succ_cons, List.cons.injEq] at ht
      obtain ⟨-, rfl, -⟩ := ht
      revert hd; decide
  have htw : (c :: cs).takeWhile (isRadixDigit 16) = c :: cs := by
    rw [List.takeWhile_eq_self_iff]
    intro d hd
    exact isRadixDigit_of_hex d (hall d hd)
  have hdw : List.dropWhile isWhiteSpace (c :: cs) = c :: cs := by
    simp [List.dropWhile_cons, hws]
  have hm : ¬ ((c :: cs).head? = some '-') := by simpa using hminus
  have hp : ¬ ((c :: cs).head? = some '+' ∨ (c :: cs).head? = some '-') := by
    simpa using ⟨hplus, hminus⟩
  have hpre : ¬ (((16 : Nat) = 0 ∨ (16 : Nat) = 16) ∧
      ((c :: cs).take 2 = ['0', 'x'] ∨ (c :: cs).take 2 = ['0', 'X'])) :=
    fun h => h.2.elim (hx []) (hX [])
  have hr : ¬ ((16 : Nat) ≠ 0 ∧ ((16 : Nat) < 2 ∨ 36 < (16 : Nat))) := by omega
  have h16 : ¬ ((16 : Nat) = 0) := by omega
  have hz : ¬ (c :: cs = []) := by simp
  unfold parseInt
  dsimp only [toStringJS, trimStart]
  rw [hdw, if_neg hm, if_neg hp, if_neg hr, if_neg h16, if_neg hpre, htw, if_neg hz]
  simp only [digitsValue, digitsValue_fold_hex (c :: cs) 0 hall]
  simp

theorem pair_ne_nil (h : JSString) (n : Nat) (hlen : h.length = 6) (hn : n ≤ 4) :
    (h.drop n).take 2 ≠ [] := by
  intro hnil
  have hl := congrArg List.length hnil
  rw [List.length_take, List.length_drop] at hl
  simp only [List.length_nil] at hl
  omega

/-- On a pair of hex digits of a six-digit string, `parseInt(s, 16)` is its base-16
value, which is exact. -/
theorem parseInt_hex_pair (h : JSString) (n : Nat) (hlen : h.length = 6) (hn : n ≤ 4)
    (hall : ∀ c ∈ h, isHexDigit c = true) :
    parseInt (some ((h.drop n).take 2)) 16 = some (readHex ((h.drop n).take 2) : Int) := by
  have hall2 : ∀ c ∈ (h.drop n).take 2, isHexDigit c = true :=
    fun c hc => hall c (List.mem_of_mem_drop (List.mem_of_mem_take hc))
  rw [parseInt_hex _ (pair_ne_nil h n hlen hn) hall2]
  have hlt := readHex_lt _ hall2
  have hl : ((h.drop n).take 2).length = 2 := by
    rw [List.length_take, List.length_drop]; omega
  rw [hl] at hlt
  rw [toDouble_small _ (by omega) (by omega)]

theorem convertColor_ok_iff (color : JSString) (rgba : RGBA) :
    convertColor color = Except.ok rgba ↔
      (stripNonHex (replaceEscapes color)).length = 6 ∧
      rgba =
        { r := some (readHex ((stripNonHex (replaceEscapes color)).take 2) : Int),
          g := some (readHex (((stripNonHex (replaceEscapes color)).drop 2).take 2) : Int),
          b := some (readHex (((stripNonHex (replaceEscapes color)).drop 4).take 2) : Int),
          alpha := 1 } := by
  unfold convertColor
  simp only []
  generalize hh : stripNonHex (replaceEscapes color) = h
  have hall : ∀ c ∈ h, isHexDigit c = true := by
    intro c hc
    rw [← hh, stripNonHex, List.mem_filter] at hc
    exact hc.2
  by_cases hlen : h.length = 6
  · rw [if_neg (by simpa using hlen)]
    have e1 : slice h 0 2 = h.take 2 := by simpa using slice_natCast h 0 2
    have e2 : slice h 2 4 = (h.drop 2).take 2 := by simpa using slice_natCast h 2 4
    have e3 : slice h 4 6 = (h.drop 4).take 2 := by simpa using slice_natCast h 4 6
    have p1 : parseInt (some (h.take 2)) 16 = some (readHex (h.take 2) : Int) :=
      parseInt_hex_pair h 0 hlen (by omega) hall
    have p2 : parseInt (some ((h.drop 2).take 2)) 16
        = some (readHex ((h.drop 2).take 2) : Int) :=
      parseInt_hex_pair h 2 hlen (by omega) hall
    have p3 : parseInt (some ((h.drop 4).take 2)) 16
        = some (readHex ((h.drop 4).take 2) : Int) :=
      parseInt_hex_pair h 4 hlen (by omega) hall
    rw [e1, e2, e3, p1, p2, p3]
    constructor
    · intro heq
      exact ⟨hlen, by cases heq; rfl⟩
    · rintro ⟨-, rfl⟩; rfl
  · rw [if_pos (by simpa using hlen)]
    constructor
    · intro heq; cases heq
    · rintro ⟨h6, -⟩; exact absurd h6 hlen

theorem readHex_pair_le (h : JSString) (n : Nat) (hlen : h.length = 6) (hn : n ≤ 4)
    (hall : ∀ c ∈ h, isHexDigit c = true) : readHex ((h.drop n).take 2) ≤ 255 := by
  have := readHex_lt ((h.drop n).take 2)
    (fun c hc => hall c (List.mem_of_mem_drop (List.mem_of_mem_take hc)))
  have hl : ((h.drop n).take 2).length = 2 := by
    rw [List.length_take, List.length_drop]; omega
  rw [hl] at this
  omega

/-- C3: for every accepted record, with `h` the trimmed field 6 after escape
replacement and deletion of the non-hex characters, the event's colour has
`r = h[0..2]`, `g = h[2..4]`, `b = h[4..6]`, each read as a base-16 number in either
case and each at most 255, and `alpha = 1`; and the token `\x212a1d` converts to
`(0x21, 0x2a, 0x1d)`. -/
theorem decodeLine_colour :
    (∀ (line : JSString) (e : Event), decodeLine line = some e →
      ∃ field6, (split ',' line)[6]? = some field6 ∧
        e.rgbaColor.r
          = some (readHex ((stripNonHex (replaceEscapes (trim field6))).take 2) : Int) ∧
        e.rgbaColor.g
          = some (readHex (((stripNonHex (replaceEscapes (trim field6))).drop 2).take 2) : Int) ∧
        e.rgbaColor.b
          = some (readHex (((stripNonHex (replaceEscapes (trim field6))).drop 4).take 2) : Int) ∧
        readHex ((stripNonHex (replaceEscapes (trim field6))).take 2) ≤ 255 ∧
        readHex (((stripNonHex (replaceEscapes (trim field6))).drop 2).take 2) ≤ 255 ∧
        readHex (((stripNonHex (replaceEscapes (trim field6))).drop 4).take 2) ≤ 255 ∧
        e.rgbaColor.alpha = 1) ∧
    convertColor "\\x212a1d".toList
      = Except.ok { r := some 0x21, g := some 0x2a, b := some 0x1d, alpha := 1 } := by
  refine ⟨?_, rfl⟩
  intro line e he
  obtain ⟨x, y, raw, rgba, -, -, hraw, -, -, -, -, -, hcc, rfl⟩ :=
    (decodeLine_some_iff line e).1 he
  obtain ⟨hlen, rfl⟩ := (convertColor_ok_iff _ _).1 hcc
  have hall : ∀ c ∈ stripNonHex (replaceEscapes (trim raw)), isHexDigit c = true := by
    intro c hc
    rw [stripNonHex, List.mem_filter] at hc
    exact hc.2
  refine ⟨raw, hraw, rfl, rfl, rfl, ?_, readHex_pair_le _ 2 hlen (by omega) hall,
    readHex_pair_le _ 4 hlen (by omega) hall, rfl⟩
  simpa using readHex_pair_le _ 0 hlen (by omega) hall

/-- C3 at the line `3,u,10,20,a,b,\x212a1d`: the red channel of its event is the
base-16 reading of the first two digits of `212a1d`. -/
theorem decodeLine_colour_witness :
    ∃ field6, (split ',' "3,u,10,20,a,b,\\x212a1d".toList)[6]? = some field6 ∧
      (some 0x21 : Number)
        = some (readHex ((stripNonHex (replaceEscapes (trim field6))).take 2) : Int) := by
  obtain ⟨f, h1, h2, -⟩ := decodeLine_colour.1 "3,u,10,20,a,b,\\x212a1d".toList
    ⟨3, 10, 20, ⟨some 0x21, some 0x2a, some 0x1d, 1⟩⟩ (by decide)
  exact ⟨f, h1, h2⟩

/-! ## Acceptance and the id -/

theorem convertColor_isOk_iff (color : JSString) :
    (∃ rgba, convertColor color = Except.ok rgba) ↔
      (stripNonHex (replaceEscapes color)).length = 6 := by
  constructor
  · rintro ⟨rgba, h⟩
    exact ((convertColor_ok_iff color rgba).1 h).1
  · intro h
    exact ⟨_, (convertColor_ok_iff color _).2 ⟨h, rfl⟩⟩

theorem decodeLine_isSome_iff (line : JSString) (x y : Int)
    (hx : parseInt (split ',' line)[2]? 10 = some x)
    (hy : parseInt (split ',' line)[3]? 10 = some y)
    (hxr : 0 ≤ x ∧ x < 1000) (hyr : 0 ≤ y ∧ y < 1000) :
    (∃ e, decodeLine line = some e) ↔
      ∃ field6, (split ',' line)[6]? = some field6 ∧ trim field6 ≠ [] ∧
        (stripNonHex (replaceEscapes (trim field6))).length = 6 := by
  constructor
  · rintro ⟨e, he⟩
    obtain ⟨x', y', raw, rgba, -, -, hraw, -, -, -, -, hne, hcc, -⟩ :=
      (decodeLine_some_iff line e).1 he
    exact ⟨raw, hraw, hne, (convertColor_isOk_iff _).1 ⟨rgba, hcc⟩⟩
  · rintro ⟨raw, hraw, hne, hlen⟩
    obtain ⟨rgba, hcc⟩ := (convertColor_isOk_iff _).2 hlen
    exact ⟨_, (decodeLine_some_iff line _).2
      ⟨x, y, raw, rgba, hx, hy, hraw, hxr.1, by simpa [CANVAS_SIZE] using hxr.2, hyr.1,
        by simpa [CANVAS_SIZE] using hyr.2, hne, hcc, rfl⟩⟩

/-- C4: for a line whose fields 2 and 3 are read as coordinates in `[0, 1000)`,
the decoder produces an event if and only if field 6 exists, is non-empty after
trimming, and keeps exactly six hex digits after normalisation; a missing field 6,
an empty one, or any other normalised length rejects the line. -/
theorem decodeLine_accepts_iff_colour (line : JSString) (x y : Int)
    (hx : parseInt (split ',' line)[2]? 10 = some x)
    (hy : parseInt (split ',' line)[3]? 10 = some y)
    (hxr : 0 ≤ x ∧ x < 1000) (hyr : 0 ≤ y ∧ y < 1000) :
    ((decodeLine line).isSome = true ↔
      ∃ field6, (split ',' line)[6]? = some field6 ∧ trim field6 ≠ [] ∧
        (stripNonHex (replaceEscapes (trim field6))).length = 6) ∧
    ((split ',' line)[6]? = none → decodeLine line = none) ∧
    (∀ field6, (split ',' line)[6]? = some field6 →
      (trim field6 = [] ∨ (stripNonHex (replaceEscapes (trim field6))).length ≠ 6) →
      decodeLine line = none) := by
  have key := decodeLine_isSome_iff line x y hx hy hxr hyr
  refine ⟨?_, ?_, ?_⟩
  · rw [Option.isSome_iff_exists]; exact key
  · intro hnone
    cases hd : decodeLine line with
    | none => rfl
    | some e =>
      obtain ⟨f, hf, -⟩ := key.1 ⟨e, hd⟩
      rw [hnone] at hf; cases hf
  · intro field6 hsome hbad
    cases hd : decodeLine line with
    | none => rfl
    | some e =>
      obtain ⟨f, hf, hne, hlen⟩ := key.1 ⟨e, hd⟩
      rw [hsome] at hf; cases hf
      rcases hbad with h | h
      · exact absurd h hne
      · exact absurd hlen h

/-- C4 at the line `3,u,10,20,a,b,\x212a1d`, whose coordinates are 10 and 20. -/
theorem decodeLine_accepts_iff_colour_witness :
    (decodeLine "3,u,10,20,a,b,\\x212a1d".toList).isSome = true ↔
      ∃ field6, (split ',' "3,u,10,20,a,b,\\x212a1d".toList)[6]? = some field6 ∧
        trim field6 ≠ [] ∧ (stripNonHex (replaceEscapes (trim field6))).length = 6 :=
  (decodeLine_accepts_iff_colour "3,u,10,20,a,b,\\x212a1d".toList 10 20
    (by decide) (by decide) (by decide) (by decide)).1

theorem isRadixDigit_ten (c : Char) (h : isRadixDigit 10 c = true) :
    48 ≤ c.toNat ∧ c.toNat ≤ 57 := by
  unfold isRadixDigit digitValue at h
  simp only [] at h
  split_ifs at h with h1 h2 h3
  · exact h1
  · simp only [decide_eq_true_eq] at h; omega
  · simp only [decide_eq_true_eq] at h; omega

/-- On a non-empty string of decimal digits, `parseInt(s, 10)` is the double of the
value of the whole string. -/
theorem parseInt_decimal (s : JSString) (hne : s ≠ [])
    (hall : ∀ c ∈ s, isRadixDigit 10 c = true) :
    parseInt (some s) 10 = some (toDouble (digitsValue 10 s : Int)) := by
  obtain ⟨c, cs, rfl⟩ := List.exists_cons_of_ne_nil hne
  have hc := isRadixDigit_ten c (hall c (List.mem_cons_self c cs))
  have hws : isWhiteSpace c = false := by
    simp only [isWhiteSpace, Bool.or_eq_false_iff, beq_eq_false_iff_ne, ne_eq,
      Bool.and_eq_false_iff, decide_eq_false_iff_not]
    omega
  have hminus : c ≠ '-' := by rintro rfl; revert hc; decide
  have hplus : c ≠ '+' := by rintro rfl; revert hc; decide
  have htw : (c :: cs).takeWhile (isRadixDigit 10) = c :: cs := by
    rw [List.takeWhile_eq_self_iff]
    exact hall
  have hdw : List.dropWhile isWhiteSpace (c :: cs) = c :: cs := by
    simp [List.dropWhile_cons, hws]
  have hm : ¬ ((c :: cs).head? = some '-') := by simpa using hminus
  have hp : ¬ ((c :: cs).head? = some '+' ∨ (c :: cs).head? = some '-') := by
    simpa using ⟨hplus, hminus⟩
  have hpre : ¬ (((10 : Nat) = 0 ∨ (10 : Nat) = 16) ∧
      ((c :: cs).take 2 = ['0', 'x'] ∨ (c :: cs).take 2 = ['0', 'X'])) :=
    fun h => by omega
  have hr : ¬ ((10 : Nat) ≠ 0 ∧ ((10 : Nat) < 2 ∨ 36 < (10 : Nat))) := by omega
  have h10 : ¬ ((10 : Nat) = 0) := by omega
  have hz : ¬ (c :: cs = []) := by simp
  unfold parseInt
  dsimp only [toStringJS, trimStart]
  rw [hdw, if_neg hm, if_neg hp, if_neg hr, if_neg h10, if_neg hpre, htw, if_neg hz]
  simp

/-- C5: a line whose coordinates and colour are valid is accepted whatever its
field 0 holds; the event's id is 1 when field 0 is empty, is read as `NaN`, or is
read as a value of at most 0, and is the value read otherwise.  The value read is
the number `parseInt` returns, a double: for a field 0 made of decimal digits
only, of a positive value `n`, the id is the double nearest to `n`, which is `n`
itself when `n < 2^53`. -/
theorem decodeLine_id (line : JSString) (x y : Int) (field6 : JSString)
    (hx : parseInt (split ',' line)[2]? 10 = some x)
    (hy : parseInt (split ',' line)[3]? 10 = some y)
    (hxr : 0 ≤ x ∧ x < 1000) (hyr : 0 ≤ y ∧ y < 1000)
    (h6 : (split ',' line)[6]? = some field6) (hne : trim field6 ≠ [])
    (hlen : (stripNonHex (replaceEscapes (trim field6))).length = 6) :
    ∃ e, decodeLine line = some e ∧
      ((split ',' line)[0]? = some [] → e.id = 1) ∧
      (parseInt (split ',' line)[0]? 10 = none → e.id = 1) ∧
      (∀ v, parseInt (split ',' line)[0]? 10 = some v → v ≤ 0 → e.id = 1) ∧
      (∀ v, parseInt (split ',' line)[0]? 10 = some v → 0 < v → e.id = v) ∧
      (∀ z : JSString, (split ',' line)[0]? = some z → z ≠ [] →
        (∀ c ∈ z, isRadixDigit 10 c = true) → 0 < digitsValue 10 z →
        e.id = toDouble (digitsValue 10 z : Int) ∧
        (digitsValue 10 z < 2 ^ 53 → e.id = (digitsValue 10 z : Int))) := by
  obtain ⟨e, he⟩ := (decodeLine_isSome_iff line x y hx hy hxr hyr).2 ⟨field6, h6, hne, hlen⟩
  obtain ⟨x', y', raw, rgba, -, -, -, -, -, -, -, -, -, rfl⟩ :=
    (decodeLine_some_iff line e).1 he
  refine ⟨_, he, ?_, ?_, ?_, ?_, ?_⟩
  · intro h0
    have : parseInt (split ',' line)[0]? 10 = none := by rw [h0]; rfl
    simp only [this]
  · intro h0
    simp only [h0]
  · intro v h0 hv
    simp only [h0]
    rw [if_pos (by omega)]
  · intro v h0 hv
    simp only [h0]
    rw [if_neg (by omega)]
  · intro z h0 hz hall hpos
    have hparse : parseInt (split ',' line)[0]? 10
        = some (toDouble (digitsValue 10 z : Int)) := by
      rw [h0]; exact parseInt_decimal z hz hall
    have hd : ¬ toDouble (digitsValue 10 z : Int) < 1 := by
      have := (toDouble_nonpos_iff (digitsValue 10 z : Int)).not.2 (by omega)
      omega
    simp only [hparse]
    rw [if_neg hd]
    refine ⟨rfl, fun hlt => toDouble_small _ (by omega) ?_⟩
    rw [two_pow_53] at hlt
    omega

/-- C5 at the line `-4,u,10,20,a,b,ffffff`: field 0 reads as -4 and the id is 1. -/
theorem decodeLine_id_witness :
    ∃ e, decodeLine "-4,u,10,20,a,b,ffffff".toList = some e ∧ e.id = 1 := by
  obtain ⟨e, he, -, -, h, -⟩ := decodeLine_id "-4,u,10,20,a,b,ffffff".toList 10 20
    "ffffff".toList (by decide) (by decide) (by decide) (by decide) (by decide)
    (by decide) (by decide)
  exact ⟨e, he, h (-4) (by decide) (by decide)⟩

/-! ## The canvas -/

theorem Buffer.set_length (buffer : Buffer) (index : Int) (value : Number) :
    (buffer.set index value).length = buffer.length := by
  unfold Buffer.set
  split <;> rfl

theorem Buffer.set_byteAt (buffer : Buffer) (index : Int) (value : Number)
    (h0 : 0 ≤ index) (h1 : index < buffer.length) (j : Nat) :
    (buffer.set index value).byteAt j
      = if j = index.toNat then toUint8 value else buffer.byteAt j := by
  unfold Buffer.set
  rw [if_pos ⟨h0, h1⟩]

theorem applyEvent_length (canvasBuffer : Buffer) (e : Event) :
    (applyEvent canvasBuffer e).length = canvasBuffer.length := by
  simp only [applyEvent, Buffer.set_length]

theorem applyEvents_length (canvasBuffer : Buffer) (chunk : List Event) :
    (applyEvents canvasBuffer chunk).length = canvasBuffer.length := by
  induction chunk generalizing canvasBuffer with
  | nil => rfl
  | cons e es ih =>
    simp only [applyEvents, List.foldl_cons] at ih ⊢
    rw [ih, applyEvent_length]

/-- The bytes after one event whose four offsets lie inside the buffer. -/
theorem applyEvent_byteAt (canvasBuffer : Buffer) (e : Event)
    (h0 : 0 ≤ pixelIndex e.x e.y) (h1 : pixelIndex e.x e.y + 3 < canvasBuffer.length)
    (j : Nat) :
    (applyEvent canvasBuffer e).byteAt j =
      if j = (pixelIndex e.x e.y).toNat then toUint8 e.rgbaColor.r
      else if j = (pixelIndex e.x e.y).toNat + 1 then toUint8 e.rgbaColor.g
      else if j = (pixelIndex e.x e.y).toNat + 2 then toUint8 e.rgbaColor.b
      else if j = (pixelIndex e.x e.y).toNat + 3 then toUint8 (some (e.rgbaColor.alpha * 255))
      else canvasBuffer.byteAt j := by
  generalize hi : pixelIndex e.x e.y = index at h0 h1
  simp only [applyEvent, hi]
  rw [Buffer.set_byteAt _ _ _ (by omega) (by simp only [Buffer.set_length]; omega),
    Buffer.set_byteAt _ _ _ (by omega) (by simp only [Buffer.set_length]; omega),
    Buffer.set_byteAt _ _ _ (by omega) (by simp only [Buffer.set_length]; omega),
    Buffer.set_byteAt _ _ _ (by omega) (by omega)]
  have e1 : (index + 1).toNat = index.toNat + 1 := by omega
  have e2 : (index + 2).toNat = index.toNat + 2 := by omega
  have e3 : (index + 3).toNat = index.toNat + 3 := by omega
  rw [e1, e2, e3]
  split_ifs <;> first | rfl | omega

theorem pixelIndex_bounds (x y : Int) (hx0 : 0 ≤ x) (hx1 : x < CANVAS_SIZE)
    (hy0 : 0 ≤ y) (hy1 : y < CANVAS_SIZE) :
    0 ≤ pixelIndex x y ∧ pixelIndex x y + 3 < 4000000 := by
  simp only [pixelIndex, CANVAS_SIZE] at *
  omega

theorem pixelIndex_inj (x y x2 y2 : Int) (hx0 : 0 ≤ x) (hx1 : x < CANVAS_SIZE)
    (hx20 : 0 ≤ x2) (hx21 : x2 < CANVAS_SIZE)
    (d : Int) (hd0 : -3 ≤ d) (hd1 : d ≤ 3)
    (h : pixelIndex x y + d = pixelIndex x2 y2) : x = x2 ∧ y = y2 := by
  simp only [pixelIndex, CANVAS_SIZE] at *
  omega

theorem initialCanvas_length : initialCanvas.length = 4000000 := by
  decide

theorem toUint8_byte (n : Nat) (h : n ≤ 255) : toUint8 (some (n : Int)) = n := by
  simp only [toUint8]
  omega

theorem applyEvent_pixelAt_other (canvasBuffer : Buffer) (e : Event)
    (hlen : canvasBuffer.length = 4000000)
    (hx : 0 ≤ e.x ∧ e.x < 1000) (hy : 0 ≤ e.y ∧ e.y < 1000)
    (x2 y2 : Int) (hx2 : 0 ≤ x2 ∧ x2 < 1000) (hy2 : 0 ≤ y2 ∧ y2 < 1000)
    (hne : (x2, y2) ≠ (e.x, e.y)) :
    pixelAt (applyEvent canvasBuffer e) x2 y2 = pixelAt canvasBuffer x2 y2 := by
  have hb0 := pixelIndex_bounds e.x e.y hx.1 hx.2 hy.1 hy.2
  have key := applyEvent_byteAt canvasBuffer e hb0.1 (by rw [hlen]; exact_mod_cast hb0.2)
  have hb2 := pixelIndex_bounds x2 y2 hx2.1 hx2.2 hy2.1 hy2.2
  have hsep : ∀ d d2 : Nat, d ≤ 3 → d2 ≤ 3 →
      (pixelIndex x2 y2).toNat + d2 ≠ (pixelIndex e.x e.y).toNat + d := by
    intro d d2 hd hd2 heq
    have := pixelIndex_inj e.x e.y x2 y2 hx.1 hx.2 hx2.1 hx2.2 ((d : Int) - d2)
      (by omega) (by omega) (by omega)
    exact hne (by rw [this.1, this.2])
  simp only [pixelAt, key]
  rw [if_neg (by simpa using hsep 0 0 (by omega) (by omega)),
    if_neg (by simpa using hsep 1 0 (by omega) (by omega)),
    if_neg (by simpa using hsep 2 0 (by omega) (by omega)),
    if_neg (by simpa using hsep 3 0 (by omega) (by omega)),
    if_neg (by simpa using hsep 0 1 (by omega) (by omega)),
    if_neg (hsep 1 1 (by omega) (by omega)),
    if_neg (hsep 2 1 (by omega) (by omega)),
    if_neg (hsep 3 1 (by omega) (by omega)),
    if_neg (by simpa using hsep 0 2 (by omega) (by omega)),
    if_neg (hsep 1 2 (by omega) (by omega)),
    if_neg (hsep 2 2 (by omega) (by omega)),
    if_neg (hsep 3 2 (by omega) (by omega)),
    if_neg (by simpa using hsep 0 3 (by omega) (by omega)),
    if_neg (hsep 1 3 (by omega) (by omega)),
    if_neg (hsep 2 3 (by omega) (by omega)),
    if_neg (hsep 3 3 (by omega) (by omega))]

theorem applyEvent_pixelAt_same (canvasBuffer : Buffer) (e : Event) (r g b : Nat)
    (hlen : canvasBuffer.length = 4000000)
    (hx : 0 ≤ e.x ∧ e.x < 1000) (hy : 0 ≤ e.y ∧ e.y < 1000)
    (hr : r ≤ 255) (hg : g ≤ 255) (hb : b ≤ 255)
    (hc : e.rgbaColor = { r := some (r : Int), g := some (g : Int), b := some (b : Int),
                          alpha := 1 }) :
    pixelAt (applyEvent canvasBuffer e) e.x e.y = (r, g, b, 255) := by
  have hb0 := pixelIndex_bounds e.x e.y hx.1 hx.2 hy.1 hy.2
  have key := applyEvent_byteAt canvasBuffer e hb0.1 (by rw [hlen]; exact_mod_cast hb0.2)
  have h255 : toUint8 (some ((1 : Int) * 255)) = 255 := by decide
  simp only [hc] at key
  simp only [toUint8_byte r hr, toUint8_byte g hg, toUint8_byte b hb, h255] at key
  simp only [pixelAt, key]
  simp

/-- C8: on the canvas buffer (4,000,000 bytes), applying one event at in-range
coordinates `(x, y)` with byte channels `r`, `g`, `b` sets the bytes at offsets
`(y * 1000 + x) * 4 .. + 3` to `r`, `g`, `b`, `255`, leaves every other byte and the
length unchanged, and so leaves the pixel at any other in-range coordinate as it
was. -/
theorem applyEvent_writes_pixel (canvasBuffer : Buffer) (e : Event) (r g b : Nat)
    (hlen : canvasBuffer.length = 4000000)
    (hx : 0 ≤ e.x ∧ e.x < 1000) (hy : 0 ≤ e.y ∧ e.y < 1000)
    (hr : r ≤ 255) (hg : g ≤ 255) (hb : b ≤ 255)
    (hc : e.rgbaColor = { r := some (r : Int), g := some (g : Int), b := some (b : Int),
                          alpha := 1 }) :
    (applyEvent canvasBuffer e).byteAt ((e.y * 1000 + e.x) * 4).toNat = r ∧
    (applyEvent canvasBuffer e).byteAt (((e.y * 1000 + e.x) * 4).toNat + 1) = g ∧
    (applyEvent canvasBuffer e).byteAt (((e.y * 1000 + e.x) * 4).toNat + 2) = b ∧
    (applyEvent canvasBuffer e).byteAt (((e.y * 1000 + e.x) * 4).toNat + 3) = 255 ∧
    (∀ j : Nat, j ≠ ((e.y * 1000 + e.x) * 4).toNat →
      j ≠ ((e.y * 1000 + e.x) * 4).toNat + 1 →
      j ≠ ((e.y * 1000 + e.x) * 4).toNat + 2 →
      j ≠ ((e.y * 1000 + e.x) * 4).toNat + 3 →
      (applyEvent canvasBuffer e).byteAt j = canvasBuffer.byteAt j) ∧
    (applyEvent canvasBuffer e).length = canvasBuffer.length ∧
    (∀ x2 y2 : Int, 0 ≤ x2 ∧ x2 < 1000 → 0 ≤ y2 ∧ y2 < 1000 → (x2, y2) ≠ (e.x, e.y) →
      pixelAt (applyEvent canvasBuffer e) x2 y2 = pixelAt canvasBuffer x2 y2) := by
  have hb0 := pixelIndex_bounds e.x e.y hx.1 hx.2 hy.1 hy.2
  have key := applyEvent_byteAt canvasBuffer e hb0.1 (by rw [hlen]; exact_mod_cast hb0.2)
  have hidx : (e.y * 1000 + e.x) * 4 = pixelIndex e.x e.y := rfl
  rw [hidx]
  have h255 : toUint8 (some ((1 : Int) * 255)) = 255 := by decide
  simp only [hc] at key
  simp only [toUint8_byte r hr, toUint8_byte g hg, toUint8_byte b hb, h255] at key
  refine ⟨?_, ?_, ?_, ?_, ?_, applyEvent_length _ _, ?_⟩
  · rw [key, if_pos rfl]
  · rw [key, if_neg (by omega), if_pos rfl]
  · rw [key, if_neg (by omega), if_neg (by omega), if_pos rfl]
  · rw [key, if_neg (by omega), if_neg (by omega), if_neg (by omega), if_pos rfl]
  · intro j h1 h2 h3 h4
    rw [key, if_neg h1, if_neg h2, if_neg h3, if_neg h4]
  · intro x2 y2 hx2 hy2 hne
    exact applyEvent_pixelAt_other canvasBuffer e hlen hx hy x2 y2 hx2 hy2 hne

/-- C8 on the initial canvas with the event `(x, y) = (10, 20)`, colour
`(0x21, 0x2a, 0x1d)`: the red byte lands at offset `(20 * 1000 + 10) * 4`. -/
theorem applyEvent_writes_pixel_witness :
    (applyEvent initialCanvas
      { id := 3, x := 10, y := 20,
        rgbaColor := { r := some 0x21, g := some 0x2a, b := some 0x1d, alpha := 1 } }).byteAt
      80040 = 0x21 :=
  (applyEvent_writes_pixel initialCanvas
    { id := 3, x := 10, y := 20,
      rgbaColor := { r := some 0x21, g := some 0x2a, b := some 0x1d, alpha := 1 } }
    0x21 0x2a 0x1d initialCanvas_length (by decide) (by decide) (by decide) (by decide)
    (by decide) rfl).1

theorem applyEvents_append_singleton (canvasBuffer : Buffer) (events : List Event)
    (e : Event) :
    applyEvents canvasBuffer (events ++ [e]) = applyEvent (applyEvents canvasBuffer events) e := by
  simp [applyEvents, List.foldl_append]

/-- C9: on the canvas buffer, after a list of in-range events has been applied in
order, the pixel at an in-range `(x, y)` holds the colour (with alpha byte 255) of
the last event of the list placed at `(x, y)`, or what it held before if there is
none; applying red then blue at `(0, 0)` leaves `(0, 0)` blue. -/
theorem applyEvents_last_write_wins :
    (∀ (canvasBuffer : Buffer) (events : List Event) (x y : Int),
      canvasBuffer.length = 4000000 →
      (∀ e ∈ events, e.inRange) →
      0 ≤ x ∧ x < 1000 → 0 ≤ y ∧ y < 1000 →
      match events.reverse.find? (fun e => decide (e.x = x ∧ e.y = y)) with
      | some e =>
        ∃ r g b : Nat,
          e.rgbaColor = { r := some (r : Int), g := some (g : Int), b := some (b : Int),
                          alpha := 1 } ∧
          pixelAt (applyEvents canvasBuffer events) x y = (r, g, b, 255)
      | none => pixelAt (applyEvents canvasBuffer events) x y = pixelAt canvasBuffer x y) ∧
    pixelAt
      (applyEvents initialCanvas
        [{ id := 1, x := 0, y := 0,
           rgbaColor := { r := some 255, g := some 0, b := some 0, alpha := 1 } },
         { id := 2, x := 0, y := 0,
           rgbaColor := { r := some 0, g := some 0, b := some 255, alpha := 1 } }])
      0 0 = (0, 0, 255, 255) := by
  refine ⟨?_, by decide⟩
  intro canvasBuffer events x y hlen hev hx hy
  induction events using List.reverseRecOn with
  | nil => simp [applyEvents]
  | append_singleton es e ih =>
    have ih := ih (fun d hd => hev d (List.mem_append_left _ hd))
    have he : e.inRange := hev e (by simp)
    obtain ⟨hx0, hx1, hy0, hy1, r, g, b, hr, hg, hb, hc⟩ := he
    simp only [CANVAS_SIZE] at hx1 hy1
    have hlen2 : (applyEvents canvasBuffer es).length = 4000000 := by
      rw [applyEvents_length, hlen]
    rw [List.reverse_append, List.reverse_singleton, List.singleton_append,
      List.find?_cons, applyEvents_append_singleton]
    by_cases hxy : e.x = x ∧ e.y = y
    · simp only [hxy, and_self, decide_True]
      refine ⟨r, g, b, hc, ?_⟩
      have := applyEvent_pixelAt_same (applyEvents canvasBuffer es) e r g b hlen2
        ⟨hx0, hx1⟩ ⟨hy0, hy1⟩ hr hg hb hc
      rw [hxy.1, hxy.2] at this
      exact this
    · have hd : decide (e.x = x ∧ e.y = y) = false := by simpa using hxy
      simp only [hd]
      have hne : (x, y) ≠ (e.x, e.y) := by
        intro h
        rw [Prod.mk.injEq] at h
        exact hxy ⟨h.1.symm, h.2.symm⟩
      rw [applyEvent_pixelAt_other (applyEvents canvasBuffer es) e hlen2 ⟨hx0, hx1⟩
        ⟨hy0, hy1⟩ x y hx hy hne]
      exact ih

/-- C9 on the initial canvas with one event at `(1, 0)`: pixel `(1, 0)` takes its
colour. -/
theorem applyEvents_last_write_wins_witness :
    ∃ r g b : Nat,
      ({ r := some 255, g := some 0, b := some 0, alpha := 1 } : RGBA)
        = { r := some (r : Int), g := some (g : Int), b := some (b : Int), alpha := 1 } ∧
      pixelAt
        (applyEvents initialCanvas
          [{ id := 1, x := 1, y := 0,
             rgbaColor := { r := some 255, g := some 0, b := some 0, alpha := 1 } }])
        1 0 = (r, g, b, 255) :=
  applyEvents_last_write_wins.1 initialCanvas
    [{ id := 1, x := 1, y := 0,
       rgbaColor := { r := some 255, g := some 0, b := some 0, alpha := 1 } }]
    1 0 initialCanvas_length
    (by
      intro e he
      rw [List.mem_singleton] at he
      subst he
      exact ⟨by decide, by decide, by decide, by decide, 255, 0, 0, by decide, by decide,
        by decide, rfl⟩)
    (by decide) (by decide)

/-- C10: for every event returned by `parseAndSortCSV`, the four offsets
`(y * 1000 + x) * 4 .. + 3` written by `generateTimelapse` are at least 0 and below
the length of the canvas buffer, which is `1000 * 1000 * 4` and stays so whatever
events are applied. -/
theorem decoded_event_offsets_in_buffer (input : List JSString) (e : Event)
    (he : e ∈ parseAndSortCSV input) :
    0 ≤ (e.y * 1000 + e.x) * 4 ∧
    (e.y * 1000 + e.x) * 4 + 3 < (initialCanvas.length : Int) ∧
    initialCanvas.length = 1000 * 1000 * 4 ∧
    ∀ events : List Event, (applyEvents initialCanvas events).length = initialCanvas.length := by
  obtain ⟨line, -, hline⟩ := (mem_parseAndSortCSV input e).1 he
  obtain ⟨x, y, raw, rgba, -, -, -, h1, h2, h3, h4, -, -, rfl⟩ :=
    (decodeLine_some_iff line e).1 hline
  have hb := pixelIndex_bounds x y h1 h2 h3 h4
  simp only [pixelIndex, CANVAS_SIZE] at hb
  refine ⟨hb.1, ?_, by decide, fun events => applyEvents_length _ _⟩
  rw [initialCanvas_length]
  exact_mod_cast hb.2

/-- C10 at the input made of the single line `3,u,999,999,a,b,ffffff`: the last
pixel of the canvas. -/
theorem decoded_event_offsets_in_buffer_witness :
    (0 : Int) ≤ (999 * 1000 + 999) * 4 ∧
    ((999 : Int) * 1000 + 999) * 4 + 3 < (initialCanvas.length : Int) :=
  have h := decoded_event_offsets_in_buffer ["3,u,999,999,a,b,ffffff".toList]
    { id := 3, x := 999, y := 999,
      rgbaColor := { r := some 255, g := some 255, b := some 255, alpha := 1 } }
    (by decide)
  ⟨h.1, h.2.1⟩

/-! ## The frame loop -/

theorem slice_chunk (pixels : List Event) (i p : Nat) :
    slice pixels (i : Int) ((i : Int) + (p : Int)) = (pixels.drop i).take p := by
  have h := slice_natCast pixels i (i + p)
  rw [Nat.cast_add] at h
  rw [h, Nat.add_sub_cancel_left]

theorem applyEvents_append (canvasBuffer : Buffer) (l1 l2 : List Event) :
    applyEvents canvasBuffer (l1 ++ l2) = applyEvents (applyEvents canvasBuffer l1) l2 := by
  simp [applyEvents, List.foldl_append]

theorem frameLoop_step_exit (env : Env) (pixels : List Event) (p : Nat) (fuel i : Nat)
    (run : Run) (h : pixels.length ≤ i) :
    frameLoop env pixels p (fuel + 1) i run = some (run, Except.ok ()) := by
  rw [frameLoop, if_neg (by omega)]

theorem frameLoop_step_fail (env : Env) (pixels : List Event) (p : Nat) (fuel i : Nat)
    (run : Run) (h : i < pixels.length) (hf : env.sharpFails run.sharpCalls.length = true) :
    frameLoop env pixels p (fuel + 1) i run =
      some ({ run with
                canvasBuffer := applyEvents run.canvasBuffer ((pixels.drop i).take p),
                sharpCalls := run.sharpCalls ++
                  [applyEvents run.canvasBuffer ((pixels.drop i).take p)] },
            Except.error (TimelapseError.serialise run.sharpCalls.length)) := by
  rw [frameLoop, if_pos (by omega)]
  simp only [slice_chunk, hf, if_true]

theorem frameLoop_step_ok (env : Env) (pixels : List Event) (p : Nat) (fuel i : Nat)
    (run : Run) (h : i < pixels.length) (hf : env.sharpFails run.sharpCalls.length = false) :
    frameLoop env pixels p (fuel + 1) i run =
      frameLoop env pixels p fuel ((i + p : Nat) : Int)
        { canvasBuffer := applyEvents run.canvasBuffer ((pixels.drop i).take p),
          sharpCalls := run.sharpCalls ++
            [applyEvents run.canvasBuffer ((pixels.drop i).take p)],
          stdin := run.stdin ++
            [StdinOp.write { raw := applyEvents run.canvasBuffer ((pixels.drop i).take p) }] } := by
  rw [frameLoop, if_pos (by omega)]
  simp only [slice_chunk, hf, Nat.cast_add]
  rfl

/-- With a positive batch size the loop ends within `pixels.length - i + 1` steps;
it only appends to the log of serialised buffers, and the `k`-th buffer it
serialises holds the first `(k + 1) * p` remaining events, as long as no earlier
serialisation failed. -/
theorem frameLoop_sharpCalls (env : Env) (pixels : List Event) (p : Nat) (hp : 1 ≤ p)
    (fuel : Nat) :
    ∀ (i : Nat) (run : Run), pixels.length - i < fuel →
      ∃ r out, frameLoop env pixels p fuel i run = some (r, out) ∧
        (∃ more, r.sharpCalls = run.sharpCalls ++ more) ∧
        ∀ k : Nat, (∀ j, j < k → env.sharpFails (run.sharpCalls.length + j) = false) →
          i + k * p < pixels.length →
          r.sharpCalls[run.sharpCalls.length + k]?
            = some (applyEvents run.canvasBuffer ((pixels.drop i).take ((k + 1) * p))) := by
  induction fuel with
  | zero => intro i run h; omega
  | succ fuel ih =>
    intro i run hfuel
    by_cases hi : i < pixels.length
    · cases hf : env.sharpFails run.sharpCalls.length with
      | true =>
        rw [frameLoop_step_fail env pixels p fuel i run hi hf]
        refine ⟨_, _, rfl, ⟨_, rfl⟩, ?_⟩
        intro k hk hik
        cases k with
        | zero =>
          simp only [Nat.add_zero, Nat.zero_add, Nat.one_mul]
          exact List.getElem?_concat_length _ _
        | succ k =>
          have := hk 0 (by omega)
          rw [Nat.add_zero, hf] at this
          cases this
      | false =>
        rw [frameLoop_step_ok env pixels p fuel i run hi hf]
        obtain ⟨r, out, hr, ⟨more, hmore⟩, hP⟩ := ih (i + p)
          { canvasBuffer := applyEvents run.canvasBuffer ((pixels.drop i).take p),
            sharpCalls := run.sharpCalls ++
              [applyEvents run.canvasBuffer ((pixels.drop i).take p)],
            stdin := run.stdin ++
              [StdinOp.write
                { raw := applyEvents run.canvasBuffer ((pixels.drop i).take p) }] }
          (by omega)
        simp only [List.length_append, List.length_singleton] at hP
        dsimp only at hmore
        refine ⟨r, out, hr,
          ⟨applyEvents run.canvasBuffer ((pixels.drop i).take p) :: more,
            by rw [hmore]; simp⟩, ?_⟩
        intro k hk hik
        cases k with
        | zero =>
          simp only [Nat.add_zero, Nat.zero_add, Nat.one_mul]
          rw [hmore, List.getElem?_append_left (by simp)]
          exact List.getElem?_concat_length _ _
        | succ k =>
          have h1 := hP k (fun j hj => by
            have := hk (j + 1) (by omega)
            rw [← this]; congr 1; omega)
            (by rw [Nat.succ_mul] at hik; omega)
          have e1 : run.sharpCalls.length + (k + 1) = run.sharpCalls.length + 1 + k := by
            omega
          rw [e1, h1, ← applyEvents_append]
          congr 2
          have e2 : (k + 1 + 1) * p = p + (k + 1) * p := by ring
          rw [e2, List.take_add, List.drop_drop]
    · rw [frameLoop_step_exit env pixels p fuel i run (by omega)]
      refine ⟨_, _, rfl, ⟨[], by simp⟩, ?_⟩
      intro k _ hik
      have : 0 ≤ k * p := Nat.zero_le _
      omega

theorem ceilDiv_step (m p : Nat) (hp : 1 ≤ p) (hm : 0 < m) :
    (m + p - 1) / p = (m - p + p - 1) / p + 1 := by
  by_cases h : p ≤ m
  · have e : m + p - 1 = (m - p + p - 1) + p := by omega
    rw [e, Nat.add_div_right _ (by omega)]
  · have e1 : m - p + p - 1 = p - 1 := by omega
    have e2 : m + p - 1 = (m - 1) + p := by omega
    have l : (m + p - 1) / p = 1 := by
      rw [e2, Nat.add_div_right _ (show 0 < p by omega),
        Nat.div_eq_of_lt (show m - 1 < p by omega)]
    have r : (m - p + p - 1) / p = 0 := by
      rw [e1]
      exact Nat.div_eq_of_lt (show p - 1 < p by omega)
    rw [l, r]

/-- With a positive batch size and no failing serialisation the loop ends normally,
having appended one `write` per batch to the input stream: `ceil((n - i) / p)` of
them, and nothing else. -/
theorem frameLoop_writes (env : Env) (pixels : List Event) (p : Nat) (hp : 1 ≤ p)
    (hok : ∀ j, env.sharpFails j = false) (fuel : Nat) :
    ∀ (i : Nat) (run : Run), pixels.length - i < fuel →
      ∃ (r : Run) (frames : List Frame),
        frameLoop env pixels p fuel i run = some (r, Except.ok ()) ∧
        r.stdin = run.stdin ++ frames.map StdinOp.write ∧
        frames.length = (pixels.length - i + p - 1) / p := by
  induction fuel with
  | zero => intro i run h; omega
  | succ fuel ih =>
    intro i run hfuel
    by_cases hi : i < pixels.length
    · rw [frameLoop_step_ok env pixels p fuel i run hi (hok _)]
      obtain ⟨r, frames, hr, hstdin, hlen⟩ := ih (i + p)
        { canvasBuffer := applyEvents run.canvasBuffer ((pixels.drop i).take p),
          sharpCalls := run.sharpCalls ++
            [applyEvents run.canvasBuffer ((pixels.drop i).take p)],
          stdin := run.stdin ++
            [StdinOp.write
              { raw := applyEvents run.canvasBuffer ((pixels.drop i).take p) }] }
        (by omega)
      dsimp only at hstdin
      refine ⟨r, { raw := applyEvents run.canvasBuffer ((pixels.drop i).take p) } :: frames,
        hr, by rw [hstdin]; simp, ?_⟩
      rw [List.length_cons, hlen, ceilDiv_step (pixels.length - i) p hp (by omega)]
      congr 2
      omega
    · rw [frameLoop_step_exit env pixels p fuel i run (by omega)]
      refine ⟨run, [], rfl, by simp, ?_⟩
      have e : pixels.length - i + p - 1 = p - 1 := by omega
      rw [e, Nat.div_eq_of_lt (by omega)]
      rfl

/-- What `generateTimelapse` adds to the result of its loop: the canvas and the log
of serialised buffers are unchanged, and the input stream receives `end` (once, or
twice when the `catch` runs after the first). -/
theorem generateTimelapse_of_loop (env : Env) (pixels : List Event) (pixelsPerFrame : Int)
    (fuel : Nat) (r0 : Run) (out0 : Except TimelapseError Unit)
    (h : frameLoop env pixels pixelsPerFrame fuel 0
      { canvasBuffer := initialCanvas, sharpCalls := [], stdin := [] } = some (r0, out0)) :
    ∃ r out ends, generateTimelapse env pixels pixelsPerFrame fuel = some (r, out) ∧
      r.sharpCalls = r0.sharpCalls ∧ r.canvasBuffer = r0.canvasBuffer ∧
      r.stdin = r0.stdin ++ StdinOp.endInput :: ends ∧
      (∀ op ∈ ends, op = StdinOp.endInput) := by
  unfold generateTimelapse
  simp only [h]
  cases out0 with
  | error err => exact ⟨_, _, [], rfl, rfl, rfl, rfl, by simp⟩
  | ok u =>
    cases hend : env.encoderEnd with
    | close code =>
      by_cases hc : code = 0
      · simp only [hc, if_true]
        exact ⟨_, _, [], rfl, rfl, rfl, rfl, by simp⟩
      · simp only [hc, if_false]
        exact ⟨_, _, [StdinOp.endInput], rfl, rfl, rfl, by simp, by simp⟩
    | error => exact ⟨_, _, [StdinOp.endInput], rfl, rfl, rfl, by simp, by simp⟩

theorem le_ceilDiv_iff (n p k : Nat) (hp : 1 ≤ p) :
    k + 1 ≤ (n + p - 1) / p ↔ k * p < n := by
  rw [Nat.le_div_iff_mul_le (by omega), Nat.succ_mul]
  omega

theorem pairwise_take_drop (pixels : List Event) (m : Nat)
    (hsorted : pixels.Pairwise (fun a b => a.id ≤ b.id)) :
    ∀ a ∈ pixels.take m, ∀ b ∈ pixels.drop m, a.id ≤ b.id := by
  have h := hsorted
  rw [← List.take_append_drop m pixels, List.pairwise_append] at h
  exact h.2.2

/-- C6: for events sorted by id and a batch size `p ≥ 1`, the buffer serialised for
the `k`-th frame (`1 ≤ k ≤ ceil(n / p)`, no earlier serialisation having failed) is
the all-255 initial buffer with the first `min (k * p) n` events applied in order;
so every applied event has an id at most that of every event not yet applied. -/
theorem generateTimelapse_frame_is_prefix (env : Env) (pixels : List Event)
    (p k fuel : Nat)
    (hsorted : pixels.Pairwise (fun a b => a.id ≤ b.id))
    (hp : 1 ≤ p) (hk1 : 1 ≤ k) (hk : k ≤ (pixels.length + p - 1) / p)
    (hfuel : pixels.length < fuel)
    (hok : ∀ j, j + 1 < k → env.sharpFails j = false) :
    ∃ r out, generateTimelapse env pixels p fuel = some (r, out) ∧
      r.sharpCalls[k - 1]?
        = some (applyEvents initialCanvas (pixels.take (min (k * p) pixels.length))) ∧
      (∀ j, initialCanvas.byteAt j = 255) ∧
      ∀ a ∈ pixels.take (min (k * p) pixels.length),
        ∀ b ∈ pixels.drop (min (k * p) pixels.length), a.id ≤ b.id := by
  obtain ⟨k, rfl⟩ : ∃ k', k = k' + 1 := ⟨k - 1, by omega⟩
  have hkp : k * p < pixels.length := (le_ceilDiv_iff _ p k hp).1 hk
  obtain ⟨r0, out0, hloop, -, hP⟩ := frameLoop_sharpCalls env pixels p hp fuel 0
    { canvasBuffer := initialCanvas, sharpCalls := [], stdin := [] } (by omega)
  obtain ⟨r, out, ends, hgen, hcalls, -, -, -⟩ :=
    generateTimelapse_of_loop env pixels p fuel r0 out0 (by simpa using hloop)
  refine ⟨r, out, hgen, ?_, fun j => rfl, pairwise_take_drop pixels _ hsorted⟩
  have h := hP k (fun j hj => by simpa using hok j (by omega)) (by omega)
  simp only [List.length_nil, Nat.zero_add, List.drop_zero] at h
  rw [hcalls, Nat.add_sub_cancel, h]
  congr 2
  rw [List.take_eq_take]
  omega

/-- C6 with three events of ids 1, 2, 3, batch size 2 and the second frame: its
buffer holds all three events. -/
theorem generateTimelapse_frame_is_prefix_witness :
    ∃ r out,
      generateTimelapse { sharpFails := fun _ => false, encoderEnd := EncoderEnd.close 0 }
        (parseAndSortCSV ["3,u,1,1,a,b,0000ff".toList, "1,u,0,0,a,b,ff0000".toList,
          "2,u,0,0,a,b,00ff00".toList, "4,u,1000,0,a,b,ffffff".toList]) (2 : Nat) 4
        = some (r, out) ∧
      r.sharpCalls[2 - 1]? = some (applyEvents initialCanvas
        ((parseAndSortCSV ["3,u,1,1,a,b,0000ff".toList, "1,u,0,0,a,b,ff0000".toList,
          "2,u,0,0,a,b,00ff00".toList, "4,u,1000,0,a,b,ffffff".toList]).take
          (min (2 * 2) (parseAndSortCSV ["3,u,1,1,a,b,0000ff".toList,
            "1,u,0,0,a,b,ff0000".toList, "2,u,0,0,a,b,00ff00".toList,
            "4,u,1000,0,a,b,ffffff".toList]).length))) := by
  obtain ⟨r, out, h1, h2, -⟩ := generateTimelapse_frame_is_prefix
    { sharpFails := fun _ => false, encoderEnd := EncoderEnd.close 0 }
    (parseAndSortCSV ["3,u,1,1,a,b,0000ff".toList, "1,u,0,0,a,b,ff0000".toList,
      "2,u,0,0,a,b,00ff00".toList, "4,u,1000,0,a,b,ffffff".toList]) 2 2 4
    (by decide) (by decide) (by decide) (by decide) (by decide) (fun _ _ => rfl)
  exact ⟨r, out, h1, h2⟩

/-- C7: for `n` events and a batch size `p ≥ 1`, a run in which no serialisation
fails performs on the encoder's input stream exactly `ceil(n / p)` writes followed
by the end-of-input signal (and nothing but end signals after it); three events
with `p = 2` give two writes, and no event gives none, the stream being ended at
once. -/
theorem generateTimelapse_frame_count (env : Env) (pixels : List Event) (p fuel : Nat)
    (hp : 1 ≤ p) (hfuel : pixels.length < fuel) (hok : ∀ j, env.sharpFails j = false) :
    ∃ (r : Run) (out : Except TimelapseError Unit) (frames : List Frame)
      (ends : List StdinOp),
      generateTimelapse env pixels p fuel = some (r, out) ∧
      r.stdin = frames.map StdinOp.write ++ StdinOp.endInput :: ends ∧
      (∀ op ∈ ends, op = StdinOp.endInput) ∧
      frames.length = (pixels.length + p - 1) / p ∧
      (pixels.length = 3 → p = 2 → frames.length = 2) ∧
      (pixels.length = 0 → r.stdin = StdinOp.endInput :: ends) := by
  obtain ⟨r0, frames, hloop, hstdin, hlen⟩ := frameLoop_writes env pixels p hp hok fuel 0
    { canvasBuffer := initialCanvas, sharpCalls := [], stdin := [] } (by omega)
  obtain ⟨r, out, ends, hgen, -, -, hs, hends⟩ :=
    generateTimelapse_of_loop env pixels p fuel r0 _ (by simpa using hloop)
  simp only [List.nil_append, Nat.sub_zero] at hstdin hlen
  rw [hstdin] at hs
  refine ⟨r, out, frames, ends, hgen, hs, hends, hlen, ?_, ?_⟩
  · intro h3 h2
    rw [hlen, h3, h2]
  · intro h0
    rw [h0, Nat.zero_add, Nat.div_eq_of_lt (show p - 1 < p by omega)] at hlen
    rw [hs, List.length_eq_zero.1 hlen]
    rfl

/-- C7 on the end-to-end scenario: rows with ids 3, 1, 2 and one row with
`x = 1000`, batch size 2: two frames are written before the end signal. -/
theorem generateTimelapse_frame_count_witness :
    ∃ (r : Run) (out : Except TimelapseError Unit) (frames : List Frame)
      (ends : List StdinOp),
      generateTimelapse { sharpFails := fun _ => false, encoderEnd := EncoderEnd.close 0 }
        (parseAndSortCSV ["3,u,1,1,a,b,0000ff".toList, "1,u,0,0,a,b,ff0000".toList,
          "2,u,0,0,a,b,00ff00".toList, "4,u,1000,0,a,b,ffffff".toList]) (2 : Nat) 4
        = some (r, out) ∧
      r.stdin = frames.map StdinOp.write ++ StdinOp.endInput :: ends ∧
      frames.length = 2 := by
  obtain ⟨r, out, frames, ends, h1, h2, -, -, h3, -⟩ := generateTimelapse_frame_count
    { sharpFails := fun _ => false, encoderEnd := EncoderEnd.close 0 }
    (parseAndSortCSV ["3,u,1,1,a,b,0000ff".toList, "1,u,0,0,a,b,ff0000".toList,
      "2,u,0,0,a,b,00ff00".toList, "4,u,1000,0,a,b,ffffff".toList]) 2 4
    (by decide) (by decide) (fun _ => rfl)
  exact ⟨r, out, frames, ends, h1, h2, h3 (by decide) rfl⟩

/-! ## The loop body never throws -/

theorem loopBody_eq (lines : List Event) (line : JSString) :
    loopBody lines line =
      Except.ok (match decodeLine line with
        | some e => lines ++ [e]
        | none => lines) := by
  unfold loopBody decodeLine
  simp only []
  cases parseInt (split ',' line)[2]? 10 with
  | none => rfl
  | some x =>
    cases parseInt (split ',' line)[3]? 10 with
    | none => rfl
    | some y =>
      cases (split ',' line)[6]? with
      | none => rfl
      | some raw =>
        simp only [Option.map_some']
        by_cases hbad : x < 0 ∨ x ≥ CANVAS_SIZE ∨ y < 0 ∨ y ≥ CANVAS_SIZE ∨ trim raw = []
        · rw [if_pos hbad, if_pos hbad]
        · rw [if_neg hbad, if_neg hbad]
          cases convertColor (trim raw) with
          | error msg => rfl
          | ok rgba => rfl

theorem foldlM_loopBody (input : List JSString) (acc : List Event) :
    input.foldlM loopBody acc =
      Except.ok (input.foldl
        (fun lines line =>
          match decodeLine line with
          | some e => lines ++ [e]
          | none => lines)
        acc) := by
  induction input generalizing acc with
  | nil => rfl
  | cons line rest ih =>
    rw [List.foldlM_cons, loopBody_eq, List.foldl_cons]
    exact ih _

/-- C16: for every line, whatever it holds, the loop body ends without throwing and
leaves `lines` either unchanged or with exactly one event appended (the one of
`decodeLine`); when the colour conversion throws `Invalid color length`, the error
is caught in the body and `lines` is unchanged; so the whole loop, run with its
exceptions, ends normally with the array that `parseAndSortCSV` sorts. -/
theorem loopBody_never_throws (lines : List Event) (line : JSString) :
    ∃ result, loopBody lines line = Except.ok result ∧
      (result = lines ∨ ∃ e, result = lines ++ [e]) ∧
      (result = match decodeLine line with
        | some e => lines ++ [e]
        | none => lines) ∧
      (∀ field6 msg, (split ',' line)[6]? = some field6 →
        convertColor (trim field6) = Except.error msg → result = lines) ∧
      loopBody lines [] = Except.ok lines ∧
      loopBody lines "1,2,3".toList = Except.ok lines ∧
      (∀ input : List JSString, input.foldlM loopBody [] = Except.ok (collect input)) := by
  refine ⟨_, loopBody_eq lines line, ?_, rfl, ?_, ?_, ?_, fun input => foldlM_loopBody input []⟩
  · cases decodeLine line with
    | none => exact Or.inl rfl
    | some e => exact Or.inr ⟨e, rfl⟩
  · intro field6 msg h6 hcc
    cases hd : decodeLine line with
    | none => rfl
    | some e =>
      obtain ⟨x, y, raw, rgba, -, -, hraw, -, -, -, -, -, hok, -⟩ :=
        (decodeLine_some_iff line e).1 hd
      rw [h6] at hraw
      cases hraw
      rw [hcc] at hok
      cases hok
  · rw [loopBody_eq]; rfl
  · rw [loopBody_eq]; rfl

/-- C16 at the line `3,u,10,20,a,b,12345`, whose colour has five hex digits: the
conversion throws and the body returns `lines` unchanged. -/
theorem loopBody_never_throws_witness :
    ∃ result, loopBody [] "3,u,10,20,a,b,12345".toList = Except.ok result ∧ result = [] := by
  obtain ⟨result, h1, -, -, h2, -⟩ := loopBody_never_throws [] "3,u,10,20,a,b,12345".toList
  exact ⟨result, h1, h2 "12345".toList "Invalid color length: 12345" (by decide) rfl⟩

/-! ## Counting the events -/

theorem decodeLine_isSome_eq_passes (line : JSString) :
    (decodeLine line).isSome = passesValidation line := by
  rw [Bool.eq_iff_iff, Option.isSome_iff_exists]
  unfold passesValidation
  simp only []
  constructor
  · rintro ⟨e, he⟩
    obtain ⟨x, y, raw, rgba, hx, hy, hraw, h1, h2, h3, h4, hne, hcc, -⟩ :=
      (decodeLine_some_iff line e).1 he
    have hlen := (convertColor_isOk_iff _).1 ⟨rgba, hcc⟩
    simp [hx, hy, hraw, h1, h2, h3, h4, hne, hlen]
  · intro h
    cases hx : parseInt (split ',' line)[2]? 10 with
    | none => simp [hx] at h
    | some x =>
      cases hy : parseInt (split ',' line)[3]? 10 with
      | none => simp [hx, hy] at h
      | some y =>
        cases hraw : (split ',' line)[6]? with
        | none => simp [hx, hy, hraw] at h
        | some raw =>
          simp only [hx, hy, hraw, Bool.and_eq_true, decide_eq_true_eq] at h
          obtain ⟨⟨⟨hx0, hx1⟩, hy0, hy1⟩, hne, hlen⟩ := h
          obtain ⟨rgba, hcc⟩ := (convertColor_isOk_iff _).2 hlen
          exact ⟨_, (decodeLine_some_iff line _).2
            ⟨x, y, raw, rgba, hx, hy, hraw, hx0, hx1, hy0, hy1, hne, hcc, rfl⟩⟩

theorem length_filterMap_decodeLine (input : List JSString) :
    (input.filterMap decodeLine).length = (input.filter passesValidation).length := by
  induction input with
  | nil => rfl
  | cons line rest ih =>
    have h := decodeLine_isSome_eq_passes line
    cases hd : decodeLine line with
    | none =>
      rw [hd] at h
      rw [List.filterMap_cons_none hd, List.filter_cons_of_neg (by simp [← h]), ih]
    | some e =>
      rw [hd] at h
      rw [List.filterMap_cons_some hd, List.filter_cons_of_pos (by simp [← h]),
        List.length_cons, List.length_cons, ih]

/-- C18: the number of events returned by `parseAndSortCSV` is the number of input
lines that pass the coordinate and colour validation, a line yielding an event
exactly when it passes, and so is at most the number of input lines. -/
theorem parseAndSortCSV_length (input : List JSString) :
    (parseAndSortCSV input).length = (input.filter passesValidation).length ∧
    (∀ line, (decodeLine line).isSome = passesValidation line) ∧
    (parseAndSortCSV input).length ≤ input.length := by
  have h : (parseAndSortCSV input).length = (input.filter passesValidation).length := by
    unfold parseAndSortCSV
    rw [(sort_perm _).length_eq, collect_eq_filterMap, length_filterMap_decodeLine]
  refine ⟨h, decodeLine_isSome_eq_passes, ?_⟩
  rw [h]
  exact List.length_filter_le _ _

/-! ## The escape replacement is redundant -/

theorem isHexDigit_backslash : isHexDigit (Char.ofNat 92) = false := by decide

theorem isHexDigit_x : isHexDigit 'x' = false := by decide

theorem stripNonHex_replaceEscapes_le (n : Nat) :
    ∀ s : JSString, s.length ≤ n → stripNonHex (replaceEscapes s) = stripNonHex s := by
  induction n with
  | zero =>
    intro s hs
    have : s = [] := List.length_eq_zero.1 (by omega)
    subst this
    rfl
  | succ n ih =>
    intro s hs
    match s, hs with
    | [], _ => rfl
    | [c], _ => rfl
    | [c, x], _ => rfl
    | [c, x, h1], _ => rfl
    | c :: x :: h1 :: h2 :: rest, hs =>
      simp only [List.length_cons] at hs
      rw [replaceEscapes]
      by_cases hm : c = Char.ofNat 92 ∧ x = 'x' ∧ isHexDigit h1 = true ∧ isHexDigit h2 = true
      · rw [if_pos hm]
        obtain ⟨rfl, rfl, hh1, hh2⟩ := hm
        have hrest := ih rest (by omega)
        simp only [stripNonHex] at hrest ⊢
        simp only [List.filter_cons, hh1, hh2, isHexDigit_backslash, isHexDigit_x, if_true,
          Bool.false_eq_true, if_false, hrest]
      · rw [if_neg hm]
        have htail := ih (x :: h1 :: h2 :: rest) (by simp only [List.length_cons]; omega)
        simp only [stripNonHex] at htail ⊢
        rw [List.filter_cons, htail]
        exact List.filter_cons.symm

theorem stripNonHex_replaceEscapes (s : JSString) :
    stripNonHex (replaceEscapes s) = stripNonHex s :=
  stripNonHex_replaceEscapes_le s.length s (le_refl _)

theorem filter_dropWhile_whiteSpace (s : JSString) :
    (s.dropWhile isWhiteSpace).filter isHexDigit = s.filter isHexDigit := by
  induction s with
  | nil => rfl
  | cons c cs ih =>
    cases hw : isWhiteSpace c with
    | false => rw [List.dropWhile_cons_of_neg (by simp [hw])]
    | true =>
      have hc : isHexDigit c = false := by
        cases hh : isHexDigit c with
        | false => rfl
        | true => rw [isWhiteSpace_of_hex c hh] at hw; cases hw
      rw [List.dropWhile_cons_of_pos hw, ih, List.filter_cons_of_neg (by simp [hc])]

theorem stripNonHex_trim (s : JSString) : stripNonHex (trim s) = stripNonHex s := by
  unfold stripNonHex trim trimStart
  rw [List.filter_reverse, filter_dropWhile_whiteSpace, List.filter_reverse,
    List.reverse_reverse, filter_dropWhile_whiteSpace]

theorem convertColor_congr (s t : JSString) (h : stripNonHex s = stripNonHex t) :
    convertColor s = convertColor t := by
  unfold convertColor
  simp only [stripNonHex_replaceEscapes, h]

theorem decodeLine_hex_mono (l1 l2 : JSString) (e : Event)
    (h0 : parseInt (split ',' l1)[0]? 10 = parseInt (split ',' l2)[0]? 10)
    (h2 : parseInt (split ',' l1)[2]? 10 = parseInt (split ',' l2)[2]? 10)
    (h3 : parseInt (split ',' l1)[3]? 10 = parseInt (split ',' l2)[3]? 10)
    (h6 : ((split ',' l1)[6]?.map stripNonHex).getD []
      = ((split ',' l2)[6]?.map stripNonHex).getD [])
    (he : decodeLine l1 = some e) : decodeLine l2 = some e := by
  obtain ⟨x, y, raw, rgba, hx, hy, hraw, hx0, hx1, hy0, hy1, hne, hcc, rfl⟩ :=
    (decodeLine_some_iff l1 e).1 he
  have hlen : (stripNonHex raw).length = 6 := by
    have := (convertColor_isOk_iff _).1 ⟨rgba, hcc⟩
    rwa [stripNonHex_replaceEscapes, stripNonHex_trim] at this
  rw [hraw, Option.map_some', Option.getD_some] at h6
  cases hraw2 : (split ',' l2)[6]? with
  | none =>
    rw [hraw2, Option.map_none', Option.getD_none] at h6
    rw [h6] at hlen
    cases hlen
  | some raw2 =>
    rw [hraw2, Option.map_some', Option.getD_some] at h6
    have hne2 : trim raw2 ≠ [] := by
      intro hnil
      have h1 : stripNonHex (trim raw2) = [] := by rw [hnil]; rfl
      rw [stripNonHex_trim, ← h6] at h1
      rw [h1] at hlen
      cases hlen
    have hcc2 : convertColor (trim raw2) = Except.ok rgba := by
      rw [← hcc]
      exact convertColor_congr _ _ (by rw [stripNonHex_trim, stripNonHex_trim, h6])
    refine (decodeLine_some_iff l2 _).2
      ⟨x, y, raw2, rgba, h2 ▸ hx, h3 ▸ hy, hraw2, hx0, hx1, hy0, hy1, hne2, hcc2, ?_⟩
    rw [h0]

/-- C19: the escape replacement is redundant: deleting the non-hex characters after
replacing the escapes gives the same string as deleting them directly; so the
colour conversion of a token, and whether and as what event a line is decoded,
depend on field 6 only through its subsequence of hex digits. -/
theorem escape_replacement_redundant :
    (∀ s : JSString, stripNonHex (replaceEscapes s) = stripNonHex s) ∧
    (∀ s t : JSString, stripNonHex s = stripNonHex t → convertColor s = convertColor t) ∧
    (∀ l1 l2 : JSString,
      parseInt (split ',' l1)[0]? 10 = parseInt (split ',' l2)[0]? 10 →
      parseInt (split ',' l1)[2]? 10 = parseInt (split ',' l2)[2]? 10 →
      parseInt (split ',' l1)[3]? 10 = parseInt (split ',' l2)[3]? 10 →
      ((split ',' l1)[6]?.map stripNonHex).getD []
        = ((split ',' l2)[6]?.map stripNonHex).getD [] →
      decodeLine l1 = decodeLine l2) := by
  refine ⟨stripNonHex_replaceEscapes, convertColor_congr, ?_⟩
  intro l1 l2 h0 h2 h3 h6
  apply Option.ext
  intro e
  exact ⟨decodeLine_hex_mono l1 l2 e h0 h2 h3 h6,
    decodeLine_hex_mono l2 l1 e h0.symm h2.symm h3.symm h6.symm⟩

/-- C19 at the lines `3,u,10,20,a,b,\x212a1d` and `3,u,10,20,a,b,#21-2a-1d`, whose
colour fields have the same hex digits. -/
theorem escape_replacement_redundant_witness :
    decodeLine "3,u,10,20,a,b,\\x212a1d".toList = decodeLine "3,u,10,20,a,b,#21-2a-1d".toList :=
  escape_replacement_redundant.2.2 _ _ (by decide) (by decide) (by decide) (by decide)

/-! ## The loop in closed form -/

theorem applyEvents_shift (c : Buffer) (pixels : List Event) (i p j : Nat) :
    applyEvents (applyEvents c ((pixels.drop i).take p))
        ((pixels.drop (i + p)).take ((j + 1) * p))
      = applyEvents c ((pixels.drop i).take ((j + 1 + 1) * p)) := by
  rw [← applyEvents_append]
  congr 1
  have e : (j + 1 + 1) * p = p + (j + 1) * p := by ring
  rw [e, List.take_add, List.drop_drop]

theorem map_range_succ {α : Type} (f : Nat → α) (n : Nat) :
    (List.range (n + 1)).map f = f 0 :: (List.range n).map (fun j => f (j + 1)) := by
  rw [List.range_succ_eq_map, List.map_cons, List.map_map]
  rfl

/-- The loop when the serialisation of its `k`-th coming frame is the first to fail:
`k` frames are written, the canvas holds `k + 1` batches, and the error is thrown. -/
theorem frameLoop_fails_at (env : Env) (pixels : List Event) (p : Nat) (hp : 1 ≤ p) :
    ∀ (k fuel i : Nat) (run : Run), pixels.length - i < fuel →
      i + k * p < pixels.length →
      (∀ j, j < k → env.sharpFails (run.sharpCalls.length + j) = false) →
      env.sharpFails (run.sharpCalls.length + k) = true →
      frameLoop env pixels p fuel i run =
        some ({ canvasBuffer := applyEvents run.canvasBuffer ((pixels.drop i).take ((k + 1) * p)),
                sharpCalls := run.sharpCalls ++ (List.range (k + 1)).map
                  (fun j => applyEvents run.canvasBuffer ((pixels.drop i).take ((j + 1) * p))),
                stdin := run.stdin ++ (List.range k).map
                  (fun j => StdinOp.write
                    { raw := applyEvents run.canvasBuffer ((pixels.drop i).take ((j + 1) * p)) }) },
              Except.error (TimelapseError.serialise (run.sharpCalls.length + k))) := by
  intro k
  induction k with
  | zero =>
    intro fuel i run hfuel hi _ hfail
    obtain ⟨fuel, rfl⟩ : ∃ f, fuel = f + 1 := ⟨fuel - 1, by omega⟩
    rw [Nat.add_zero] at hfail
    rw [frameLoop_step_fail env pixels p fuel i run (by omega) hfail]
    simp [show List.range 1 = [0] from rfl]
  | succ k ih =>
    intro fuel i run hfuel hi hok hfail
    obtain ⟨fuel, rfl⟩ : ∃ f, fuel = f + 1 := ⟨fuel - 1, by omega⟩
    have h0 : env.sharpFails run.sharpCalls.length = false := by
      simpa using hok 0 (by omega)
    have hi2 : i + p + k * p < pixels.length := by
      rw [Nat.succ_mul] at hi; omega
    rw [frameLoop_step_ok env pixels p fuel i run (by omega) h0,
      ih fuel (i + p) _ (by omega) hi2
        (fun j hj => by
          have := hok (j + 1) (by omega)
          simp only [List.length_append, List.length_singleton]
          rw [← this]; congr 1; omega)
        (by
          simp only [List.length_append, List.length_singleton]
          rw [← hfail]; congr 1; omega)]
    simp only [List.length_append, List.length_singleton, applyEvents_shift,
      List.append_assoc, List.singleton_append]
    have e : run.sharpCalls.length + 1 + k = run.sharpCalls.length + (k + 1) := by omega
    rw [e, map_range_succ _ (k + 1), map_range_succ (fun j => StdinOp.write
      { raw := applyEvents run.canvasBuffer ((pixels.drop i).take ((j + 1) * p)) }) k]
    simp only [Nat.zero_add, Nat.one_mul]

theorem applyEvents_take_drop (c : Buffer) (pixels : List Event) (i p : Nat) :
    applyEvents (applyEvents c ((pixels.drop i).take p)) (pixels.drop (i + p))
      = applyEvents c (pixels.drop i) := by
  rw [← applyEvents_append, ← List.drop_drop, List.take_append_drop]

/-- The loop when no serialisation fails: every batch is applied, and one buffer is
serialised and written per batch, the `j`-th holding the first `j + 1` batches. -/
theorem frameLoop_ok_run (env : Env) (pixels : List Event) (p : Nat) (hp : 1 ≤ p)
    (hok : ∀ j, env.sharpFails j = false) (fuel : Nat) :
    ∀ (i : Nat) (run : Run), pixels.length - i < fuel →
      frameLoop env pixels p fuel i run =
        some ({ canvasBuffer := applyEvents run.canvasBuffer (pixels.drop i),
                sharpCalls := run.sharpCalls ++
                  (List.range ((pixels.length - i + p - 1) / p)).map
                    (fun j => applyEvents run.canvasBuffer ((pixels.drop i).take ((j + 1) * p))),
                stdin := run.stdin ++
                  (List.range ((pixels.length - i + p - 1) / p)).map
                    (fun j => StdinOp.write
                      { raw := applyEvents run.canvasBuffer
                          ((pixels.drop i).take ((j + 1) * p)) }) },
              Except.ok ()) := by
  induction fuel with
  | zero => intro i run h; omega
  | succ fuel ih =>
    intro i run hfuel
    by_cases hi : i < pixels.length
    · rw [frameLoop_step_ok env pixels p fuel i run hi (hok _), ih (i + p) _ (by omega)]
      have hc : (pixels.length - i + p - 1) / p
          = (pixels.length - (i + p) + p - 1) / p + 1 := by
        rw [ceilDiv_step (pixels.length - i) p hp (by omega)]
        congr 2
        omega
      rw [hc, map_range_succ _ ((pixels.length - (i + p) + p - 1) / p),
        map_range_succ (fun j => StdinOp.write
          { raw := applyEvents run.canvasBuffer ((pixels.drop i).take ((j + 1) * p)) })
          ((pixels.length - (i + p) + p - 1) / p)]
      simp only [applyEvents_shift, applyEvents_take_drop, List.append_assoc,
        List.singleton_append, Nat.zero_add, Nat.one_mul]
    · rw [frameLoop_step_exit env pixels p fuel i run (by omega)]
      have e : (pixels.length - i + p - 1) / p = 0 := by
        have e1 : pixels.length - i + p - 1 = p - 1 := by omega
        rw [e1]
        exact Nat.div_eq_of_lt (show p - 1 < p by omega)
      rw [e, List.drop_of_length_le (by omega)]
      simp [applyEvents]

/-! ## Opacity -/

theorem Buffer.set_byteAt_eq (buffer : Buffer) (index : Int) (value : Number) (j : Nat) :
    (buffer.set index value).byteAt j
      = if 0 ≤ index ∧ index < buffer.length ∧ j = index.toNat then toUint8 value
        else buffer.byteAt j := by
  unfold Buffer.set
  by_cases h : 0 ≤ index ∧ index < buffer.length
  · rw [if_pos h]
    by_cases hj : j = index.toNat
    · rw [if_pos ⟨h.1, h.2, hj⟩]
      simp [hj]
    · rw [if_neg (fun hh => hj hh.2.2)]
      simp [hj]
  · rw [if_neg h, if_neg (fun hh => h ⟨hh.1, hh.2.1⟩)]

theorem applyEvent_alpha (b : Buffer) (e : Event) (ha : e.rgbaColor.alpha = 1)
    (h : ∀ j, j < b.length → j % 4 = 3 → b.byteAt j = 255) :
    ∀ j, j < (applyEvent b e).length → j % 4 = 3 → (applyEvent b e).byteAt j = 255 := by
  intro j hj hmod
  rw [applyEvent_length] at hj
  have hb := h j hj hmod
  have hidx : pixelIndex e.x e.y = 4 * (e.y * CANVAS_SIZE + e.x) := by
    unfold pixelIndex; ring
  have h255 : toUint8 (some ((1 : Int) * 255)) = 255 := by decide
  simp only [applyEvent, Buffer.set_byteAt_eq, Buffer.set_length, ha, h255, hidx]
  generalize e.y * CANVAS_SIZE + e.x = m
  split_ifs <;> first | rfl | exact hb | omega

theorem applyEvents_alpha (chunk : List Event) (hc : ∀ e ∈ chunk, e.rgbaColor.alpha = 1) :
    ∀ b : Buffer, (∀ j, j < b.length → j % 4 = 3 → b.byteAt j = 255) →
      ∀ j, j < (applyEvents b chunk).length → j % 4 = 3 →
        (applyEvents b chunk).byteAt j = 255 := by
  induction chunk with
  | nil => intro b h; exact h
  | cons e es ih =>
    intro b h
    have h1 := applyEvent_alpha b e (hc e (List.mem_cons_self e es)) h
    exact ih (fun d hd => hc d (List.mem_cons_of_mem e hd)) _ h1

theorem mem_of_mem_slice {α : Type} (l : List α) (a b : Int) (x : α)
    (h : x ∈ slice l a b) : x ∈ l :=
  List.mem_of_mem_drop (List.mem_of_mem_take h)

theorem frameLoop_preserves (env : Env) (pixels : List Event) (p : Int)
    (P : Buffer → Prop)
    (hP : ∀ (b : Buffer) (chunk : List Event), (∀ e ∈ chunk, e ∈ pixels) → P b →
      P (applyEvents b chunk)) (fuel : Nat) :
    ∀ (i : Int) (run r : Run) (out : Except TimelapseError Unit),
      P run.canvasBuffer → (∀ b ∈ run.sharpCalls, P b) →
      frameLoop env pixels p fuel i run = some (r, out) →
      P r.canvasBuffer ∧ ∀ b ∈ r.sharpCalls, P b := by
  induction fuel with
  | zero =>
    intro i run r out _ _ h
    simp [frameLoop] at h
  | succ fuel ih =>
    intro i run r out hc hs h
    rw [frameLoop] at h
    have hnew : P (applyEvents run.canvasBuffer (slice pixels i (i + p))) :=
      hP _ _ (fun e he => mem_of_mem_slice pixels _ _ e he) hc
    have hs2 : ∀ b ∈ run.sharpCalls ++ [applyEvents run.canvasBuffer (slice pixels i (i + p))],
        P b := by
      intro b hb
      rcases List.mem_append.1 hb with hb | hb
      · exact hs b hb
      · rw [List.mem_singleton] at hb
        rw [hb]; exact hnew
    by_cases h1 : i < (pixels.length : Int)
    · cases hf : env.sharpFails run.sharpCalls.length with
      | false =>
        simp only [h1, hf, if_true, Bool.false_eq_true, if_false] at h
        exact ih _ _ r out hnew hs2 h
      | true =>
        simp only [h1, hf, if_true, Option.some.injEq, Prod.mk.injEq] at h
        obtain ⟨rfl, -⟩ := h
        exact ⟨hnew, hs2⟩
    · simp only [h1, if_false, Option.some.injEq, Prod.mk.injEq] at h
      obtain ⟨rfl, -⟩ := h
      exact ⟨hc, hs⟩

theorem generateTimelapse_returns (env : Env) (pixels : List Event) (p fuel : Nat)
    (hp : 1 ≤ p) (hfuel : pixels.length < fuel) :
    ∃ r0 out0 r out ends,
      frameLoop env pixels p fuel 0
        { canvasBuffer := initialCanvas, sharpCalls := [], stdin := [] } = some (r0, out0) ∧
      generateTimelapse env pixels p fuel = some (r, out) ∧
      r.sharpCalls = r0.sharpCalls ∧ r.canvasBuffer = r0.canvasBuffer ∧
      r.stdin = r0.stdin ++ StdinOp.endInput :: ends ∧
      (∀ op ∈ ends, op = StdinOp.endInput) := by
  obtain ⟨r0, out0, hloop, -, -⟩ := frameLoop_sharpCalls env pixels p hp fuel 0
    { canvasBuffer := initialCanvas, sharpCalls := [], stdin := [] } (by omega)
  have hloop2 : frameLoop env pixels p fuel 0
      { canvasBuffer := initialCanvas, sharpCalls := [], stdin := [] } = some (r0, out0) := by
    simpa using hloop
  obtain ⟨r, out, ends, h1, h2, h3, h4, h5⟩ :=
    generateTimelapse_of_loop env pixels p fuel r0 out0 hloop2
  exact ⟨r0, out0, r, out, ends, hloop2, h1, h2, h3, h4, h5⟩

/-- C20: for the events returned by `parseAndSortCSV` and a batch size `p ≥ 1`, every
buffer serialised at a frame boundary, and the canvas at the end of the run, has the
byte 255 at every index congruent to 3 modulo 4, as the initial buffer has. -/
theorem canvas_stays_opaque (env : Env) (input : List JSString) (p fuel : Nat)
    (hp : 1 ≤ p) (hfuel : (parseAndSortCSV input).length < fuel) :
    ∃ r out, generateTimelapse env (parseAndSortCSV input) p fuel = some (r, out) ∧
      (∀ b ∈ r.sharpCalls, ∀ j, j < b.length → j % 4 = 3 → b.byteAt j = 255) ∧
      (∀ j, j < r.canvasBuffer.length → j % 4 = 3 → r.canvasBuffer.byteAt j = 255) ∧
      (∀ j, j < initialCanvas.length → j % 4 = 3 → initialCanvas.byteAt j = 255) := by
  obtain ⟨r0, out0, r, out, ends, hloop, hgen, hcalls, hcanvas, -, -⟩ :=
    generateTimelapse_returns env (parseAndSortCSV input) p fuel hp hfuel
  have halpha : ∀ e ∈ parseAndSortCSV input, e.rgbaColor.alpha = 1 := by
    intro e he
    obtain ⟨line, -, hline⟩ := (mem_parseAndSortCSV input e).1 he
    obtain ⟨x, y, raw, rgba, -, -, -, -, -, -, -, -, hcc, rfl⟩ :=
      (decodeLine_some_iff line e).1 hline
    obtain ⟨-, rfl⟩ := (convertColor_ok_iff _ _).1 hcc
    rfl
  have hinit : ∀ j, j < initialCanvas.length → j % 4 = 3 → initialCanvas.byteAt j = 255 :=
    fun _ _ _ => rfl
  have key := frameLoop_preserves env (parseAndSortCSV input) p
    (fun b => ∀ j, j < b.length → j % 4 = 3 → b.byteAt j = 255)
    (fun b chunk hsub hb => applyEvents_alpha chunk (fun e he => halpha e (hsub e he)) b hb)
    fuel 0 _ r0 out0 hinit (by simp) hloop
  refine ⟨r, out, hgen, ?_, ?_, hinit⟩
  · rw [hcalls]; exact key.2
  · rw [hcanvas]; exact key.1

/-- C20 on a two-line input with batch size 1. -/
theorem canvas_stays_opaque_witness :
    ∃ r out,
      generateTimelapse { sharpFails := fun _ => false, encoderEnd := EncoderEnd.close 0 }
        (parseAndSortCSV ["2,u,1,0,a,b,00ff00".toList, "1,u,0,0,a,b,ff0000".toList])
        (1 : Nat) 3 = some (r, out) ∧
      ∀ b ∈ r.sharpCalls, ∀ j, j < b.length → j % 4 = 3 → b.byteAt j = 255 := by
  obtain ⟨r, out, h1, h2, -⟩ := canvas_stays_opaque
    { sharpFails := fun _ => false, encoderEnd := EncoderEnd.close 0 }
    ["2,u,1,0,a,b,00ff00".toList, "1,u,0,0,a,b,ff0000".toList] 1 3 (by decide) (by decide)
  exact ⟨r, out, h1, h2⟩

/-! ## Batches -/

theorem batch_eq (pixels : List Event) (p j : Nat) :
    batch pixels (p : Int) j = (pixels.drop (j * p)).take p := by
  unfold batch
  rw [← Nat.cast_mul]
  exact slice_chunk pixels (j * p) p

theorem flatten_batches (pixels : List Event) (p k : Nat) :
    ((List.range k).map (batch pixels (p : Int))).flatten = pixels.take (k * p) := by
  induction k with
  | zero => simp
  | succ k ih =>
    rw [List.range_succ, List.map_append, List.flatten_append, ih, List.map_singleton,
      List.flatten_singleton, batch_eq, Nat.succ_mul, List.take_add]

theorem batch_le_batch (pixels : List Event) (p j k : Nat)
    (hsorted : pixels.Pairwise (fun a b => a.id ≤ b.id)) (hjk : j < k) :
    ∀ a ∈ batch pixels (p : Int) j, ∀ b ∈ batch pixels (p : Int) k, a.id ≤ b.id := by
  intro a ha b hb
  rw [batch_eq] at ha hb
  have hb2 : b ∈ pixels.drop (k * p) := List.mem_of_mem_take hb
  have ha2 : a ∈ pixels.take (k * p) := by
    have e : k * p = j * p + (p + (k - j - 1) * p) := by
      have : k = j + (1 + (k - j - 1)) := by omega
      calc k * p = (j + (1 + (k - j - 1))) * p := by rw [← this]
        _ = j * p + (p + (k - j - 1) * p) := by ring
    rw [e, List.take_add, List.take_add]
    exact List.mem_append_right _ (List.mem_append_left _ ha)
  exact pairwise_take_drop pixels (k * p) hsorted a ha2 b hb2

/-- C17 as stated fails: with two rows of id 1 and batch size 1, the event of batch
0 and the event of batch 1 have the same id. -/
theorem batches_not_strictly_increasing :
    ¬ (∀ a ∈ batch (parseAndSortCSV ["1,u,0,0,a,b,ff0000".toList,
          "1,u,1,0,a,b,00ff00".toList]) 1 0,
        ∀ b ∈ batch (parseAndSortCSV ["1,u,0,0,a,b,ff0000".toList,
          "1,u,1,0,a,b,00ff00".toList]) 1 1, a.id < b.id) := by
  decide

/-- C17, amended: for the output of `parseAndSortCSV`, a batch size `p ≥ 1` and no
failing serialisation, the frames are written in increasing batch order, the `k`-th
showing batches 0 to `k`, then the stream is ended; and for two batches `j < k`
every event of batch `j` has an id at most that of every event of batch `k`. -/
theorem frames_in_batch_order (env : Env) (input : List JSString) (p fuel : Nat)
    (hp : 1 ≤ p) (hfuel : (parseAndSortCSV input).length < fuel)
    (hok : ∀ j, env.sharpFails j = false) :
    ∃ r out ends, generateTimelapse env (parseAndSortCSV input) p fuel = some (r, out) ∧
      r.stdin =
        (List.range (((parseAndSortCSV input).length + p - 1) / p)).map
          (fun k => StdinOp.write
            { raw := applyEvents initialCanvas
                ((List.range (k + 1)).map (batch (parseAndSortCSV input) (p : Int))).flatten })
          ++ StdinOp.endInput :: ends ∧
      (∀ op ∈ ends, op = StdinOp.endInput) ∧
      ∀ j k, j < k → ∀ a ∈ batch (parseAndSortCSV input) (p : Int) j,
        ∀ b ∈ batch (parseAndSortCSV input) (p : Int) k, a.id ≤ b.id := by
  have hloop := frameLoop_ok_run env (parseAndSortCSV input) p hp hok fuel 0
    { canvasBuffer := initialCanvas, sharpCalls := [], stdin := [] } (by omega)
  obtain ⟨r, out, ends, hgen, -, -, hstdin, hends⟩ :=
    generateTimelapse_of_loop env (parseAndSortCSV input) p fuel _ _ (by simpa using hloop)
  refine ⟨r, out, ends, hgen, ?_, hends,
    fun j k hjk => batch_le_batch _ p j k
      (by
        unfold parseAndSortCSV
        rw [collect_eq_filterMap]
        exact sort_pairwise _ (decoded_id_range input)) hjk⟩
  rw [hstdin]
  simp only [List.nil_append, Nat.sub_zero, List.drop_zero, flatten_batches]

/-- C17, amended, on three rows of ids 2, 1, 1 with batch size 1: the run returns
and the ids of the three batches are 1, 1, 2. -/
theorem frames_in_batch_order_witness :
    ∃ (r : Run) (out : Except TimelapseError Unit) (ends : List StdinOp),
      generateTimelapse { sharpFails := fun _ => false, encoderEnd := EncoderEnd.close 0 }
        (parseAndSortCSV ["2,u,2,0,a,b,0000ff".toList, "1,u,0,0,a,b,ff0000".toList,
          "1,u,1,0,a,b,00ff00".toList]) ((1 : Nat) : Int) 4 = some (r, out) ∧
      (∀ op ∈ ends, op = StdinOp.endInput) ∧
      (List.range 3).map (fun j => (batch (parseAndSortCSV ["2,u,2,0,a,b,0000ff".toList,
        "1,u,0,0,a,b,ff0000".toList, "1,u,1,0,a,b,00ff00".toList]) 1 j).map Event.id)
        = [[1], [1], [2]] := by
  obtain ⟨r, out, ends, h1, -, h2, -⟩ := frames_in_batch_order
    { sharpFails := fun _ => false, encoderEnd := EncoderEnd.close 0 }
    ["2,u,2,0,a,b,0000ff".toList, "1,u,0,0,a,b,ff0000".toList, "1,u,1,0,a,b,00ff00".toList]
    1 4 (by decide) (by decide) (fun _ => rfl)
  exact ⟨r, out, ends, h1, h2, by decide⟩

/-! ## Failures and the input stream -/

theorem frameLoop_only_writes (env : Env) (pixels : List Event) (p : Int) (fuel : Nat) :
    ∀ (i : Int) (run r : Run) (out : Except TimelapseError Unit),
      (∀ op ∈ run.stdin, op.isWrite = true) →
      frameLoop env pixels p fuel i run = some (r, out) →
      ∀ op ∈ r.stdin, op.isWrite = true := by
  induction fuel with
  | zero =>
    intro i run r out _ h
    simp [frameLoop] at h
  | succ fuel ih =>
    intro i run r out hs h
    rw [frameLoop] at h
    by_cases h1 : i < (pixels.length : Int)
    · cases hf : env.sharpFails run.sharpCalls.length with
      | false =>
        simp only [h1, hf, if_true, Bool.false_eq_true, if_false] at h
        refine ih _ _ r out ?_ h
        intro op hop
        rcases List.mem_append.1 hop with hop | hop
        · exact hs op hop
        · rw [List.mem_singleton] at hop
          rw [hop]; rfl
      | true =>
        simp only [h1, hf, if_true, Option.some.injEq, Prod.mk.injEq] at h
        obtain ⟨rfl, -⟩ := h
        exact hs
    · simp only [h1, if_false, Option.some.injEq, Prod.mk.injEq] at h
      obtain ⟨rfl, -⟩ := h
      exact hs

/-- Every result of `generateTimelapse` has its input stream ended: the operations
are writes, then `end`, then at most further `end`s. -/
theorem generateTimelapse_stdin_ended (env : Env) (pixels : List Event) (q : Int)
    (fuel : Nat) (r : Run) (out : Except TimelapseError Unit)
    (h : generateTimelapse env pixels q fuel = some (r, out)) :
    ∃ writes ends, r.stdin = writes ++ StdinOp.endInput :: ends ∧
      (∀ op ∈ writes, op.isWrite = true) ∧ ∀ op ∈ ends, op = StdinOp.endInput := by
  cases hloop : frameLoop env pixels q fuel 0
      { canvasBuffer := initialCanvas, sharpCalls := [], stdin := [] } with
  | none => simp [generateTimelapse, hloop] at h
  | some res =>
    obtain ⟨r0, out0⟩ := res
    obtain ⟨r2, out2, ends, hgen, -, -, hstdin, hends⟩ :=
      generateTimelapse_of_loop env pixels q fuel r0 out0 hloop
    rw [h] at hgen
    simp only [Option.some.injEq, Prod.mk.injEq] at hgen
    obtain ⟨rfl, -⟩ := hgen
    exact ⟨r0.stdin, ends, hstdin,
      frameLoop_only_writes env pixels q fuel 0 _ r0 out0 (by simp) hloop, hends⟩

theorem writeCount_eq (run : Run) (writes ends : List StdinOp)
    (h : run.stdin = writes ++ StdinOp.endInput :: ends)
    (hw : ∀ op ∈ writes, op.isWrite = true) (he : ∀ op ∈ ends, op = StdinOp.endInput) :
    writeCount run = writes.length := by
  unfold writeCount
  rw [h, List.filter_append, List.filter_cons_of_neg (by simp [StdinOp.isWrite]),
    List.filter_eq_self.2 hw, List.filter_eq_nil_iff.2, List.append_nil]
  intro op hop
  rw [he op hop]
  simp [StdinOp.isWrite]

/-- C12 as stated fails for a failing write: the first write ends in an `error` event
on the stream (the handler runs for write 0), yet the second batch is applied, its
frame is serialised and written, and `generateTimelapse` fails with the exit code of
the encoder, not with the write error. -/
theorem write_error_does_not_stop_loop :
    ∃ sr,
      generateTimelapseStream
        { writeReturns := fun _ => true, writeErrors := fun k => k == 0 }
        { sharpFails := fun _ => false, encoderEnd := EncoderEnd.close 1 }
        [{ id := 1, x := 0, y := 0,
           rgbaColor := { r := some 255, g := some 0, b := some 0, alpha := 1 } },
         { id := 2, x := 1, y := 0,
           rgbaColor := { r := some 0, g := some 255, b := some 0, alpha := 1 } }]
        1 3 = some sr ∧
      sr.handled = [0] ∧ writeCount sr.run = 2 ∧ sr.run.sharpCalls.length = 2 ∧
      pixelAt sr.run.canvasBuffer 1 0 = (0, 255, 0, 255) ∧
      sr.outcome = Except.error (TimelapseError.exitCode 1) :=
  ⟨_, rfl, by decide, by decide, by decide, by decide, rfl⟩

/-- C12, amended: for a batch size `p ≥ 1`, if the serialisation of the frame of
batch `k` is the first to fail, the run ends with the canvas holding batches 0 to
`k` and no later one, the frames of batches 0 to `k - 1` written and no later one,
the input stream ended, and that serialisation error thrown; what happens on the
stream during a write changes neither the run nor its outcome; and every result of
`generateTimelapse`, normal or not, has its input stream ended after its writes. -/
theorem serialise_failure_stops_run (env : Env) (pixels : List Event) (p k fuel : Nat)
    (hp : 1 ≤ p) (hfuel : pixels.length < fuel) (hk : k * p < pixels.length)
    (hok : ∀ j, j < k → env.sharpFails j = false) (hfail : env.sharpFails k = true) :
    generateTimelapse env pixels p fuel =
      some ({ canvasBuffer := applyEvents initialCanvas (pixels.take ((k + 1) * p)),
              sharpCalls := (List.range (k + 1)).map
                (fun j => applyEvents initialCanvas (pixels.take ((j + 1) * p))),
              stdin := (List.range k).map
                (fun j => StdinOp.write
                  { raw := applyEvents initialCanvas (pixels.take ((j + 1) * p)) })
                ++ [StdinOp.endInput] },
            Except.error (TimelapseError.serialise k)) ∧
    (∀ stream : StreamEnv,
      (generateTimelapseStream stream env pixels p fuel).map
          (fun sr => (sr.run.stdin.length, sr.run.sharpCalls.length, sr.outcome))
        = some (k + 1, k + 1, Except.error (TimelapseError.serialise k))) ∧
    (∀ (env2 : Env) (q : Int) (fuel2 : Nat) (r : Run) (out : Except TimelapseError Unit),
      generateTimelapse env2 pixels q fuel2 = some (r, out) →
      ∃ writes ends, r.stdin = writes ++ StdinOp.endInput :: ends ∧
        (∀ op ∈ writes, op.isWrite = true) ∧ ∀ op ∈ ends, op = StdinOp.endInput) := by
  have hloop := frameLoop_fails_at env pixels p hp k fuel 0
    { canvasBuffer := initialCanvas, sharpCalls := [], stdin := [] } (by omega) (by omega)
    (fun j hj => by simpa using hok j hj) (by simpa using hfail)
  simp only [List.drop_zero, List.nil_append, List.length_nil, Nat.zero_add,
    Nat.cast_zero] at hloop
  have hgen : generateTimelapse env pixels p fuel =
      some ({ canvasBuffer := applyEvents initialCanvas (pixels.take ((k + 1) * p)),
              sharpCalls := (List.range (k + 1)).map
                (fun j => applyEvents initialCanvas (pixels.take ((j + 1) * p))),
              stdin := (List.range k).map
                (fun j => StdinOp.write
                  { raw := applyEvents initialCanvas (pixels.take ((j + 1) * p)) })
                ++ [StdinOp.endInput] },
            Except.error (TimelapseError.serialise k)) := by
    unfold generateTimelapse
    simp only [hloop]
  refine ⟨hgen, ?_, fun env2 q fuel2 r out h =>
    generateTimelapse_stdin_ended env2 pixels q fuel2 r out h⟩
  intro stream
  unfold generateTimelapseStream
  rw [hgen]
  simp

/-- C12, amended, with two events, batch size 1 and a first serialisation that
fails: nothing is written before the stream is ended. -/
theorem serialise_failure_stops_run_witness :
    (generateTimelapseStream { writeReturns := fun _ => true, writeErrors := fun _ => false }
        { sharpFails := fun _ => true, encoderEnd := EncoderEnd.close 0 }
        [{ id := 1, x := 0, y := 0,
           rgbaColor := { r := some 255, g := some 0, b := some 0, alpha := 1 } },
         { id := 2, x := 1, y := 0,
           rgbaColor := { r := some 0, g := some 255, b := some 0, alpha := 1 } }]
        ((1 : Nat) : Int) 3).map
      (fun sr => (sr.run.stdin.length, sr.run.sharpCalls.length, sr.outcome))
      = some (0 + 1, 0 + 1, Except.error (TimelapseError.serialise 0)) :=
  (serialise_failure_stops_run
    { sharpFails := fun _ => true, encoderEnd := EncoderEnd.close 0 }
    [{ id := 1, x := 0, y := 0,
       rgbaColor := { r := some 255, g := some 0, b := some 0, alpha := 1 } },
     { id := 2, x := 1, y := 0,
       rgbaColor := { r := some 0, g := some 255, b := some 0, alpha := 1 } }]
    1 0 3 (by decide) (by decide) (by decide) (fun _ hj => absurd hj (by omega)) rfl).2.1
    { writeReturns := fun _ => true, writeErrors := fun _ => false }

/-- C13 as stated fails: on a stream whose every write reports a full buffer
(`write` returns `false`) and which never drains, the second frame is serialised and
written all the same. -/
theorem write_ignores_full_buffer :
    ∃ sr,
      generateTimelapseStream
        { writeReturns := fun _ => false, writeErrors := fun _ => false }
        { sharpFails := fun _ => false, encoderEnd := EncoderEnd.close 0 }
        [{ id := 1, x := 0, y := 0,
           rgbaColor := { r := some 255, g := some 0, b := some 0, alpha := 1 } },
         { id := 2, x := 1, y := 0,
           rgbaColor := { r := some 0, g := some 255, b := some 0, alpha := 1 } }]
        1 3 = some sr ∧
      sr.returned = [false, false] ∧ writeCount sr.run = 2 ∧
      sr.run.sharpCalls.length = 2 ∧ sr.outcome = Except.ok () :=
  ⟨_, rfl, by decide, by decide, by decide, rfl⟩

/-- C13, amended: `generateTimelapse` does not wait for the input stream to drain.
For a batch size `p ≥ 1` and no failing serialisation, whatever the writes return,
all `ceil(n / p)` frames are serialised and written, each write's returned value
being discarded; and the run and its outcome are the same on every stream. -/
theorem generateTimelapse_ignores_drain (stream : StreamEnv) (env : Env)
    (pixels : List Event) (p fuel : Nat)
    (hp : 1 ≤ p) (hfuel : pixels.length < fuel) (hok : ∀ j, env.sharpFails j = false) :
    ∃ sr, generateTimelapseStream stream env pixels p fuel = some sr ∧
      writeCount sr.run = (pixels.length + p - 1) / p ∧
      sr.run.sharpCalls.length = (pixels.length + p - 1) / p ∧
      sr.returned = (List.range ((pixels.length + p - 1) / p)).map stream.writeReturns ∧
      ∀ stream2 : StreamEnv,
        ∃ sr2, generateTimelapseStream stream2 env pixels p fuel = some sr2 ∧
          sr2.run.stdin.length = sr.run.stdin.length ∧
          sr2.run.sharpCalls = sr.run.sharpCalls ∧
          sr2.run.canvasBuffer = sr.run.canvasBuffer ∧ sr2.outcome = sr.outcome := by
  have hloop := frameLoop_ok_run env pixels p hp hok fuel 0
    { canvasBuffer := initialCanvas, sharpCalls := [], stdin := [] } (by omega)
  obtain ⟨r, out, ends, hgen, hcalls, -, hstdin, hends⟩ :=
    generateTimelapse_of_loop env pixels p fuel _ _ (by simpa using hloop)
  simp only [List.nil_append, Nat.sub_zero, List.drop_zero] at hcalls hstdin
  have hcount : writeCount r = (pixels.length + p - 1) / p := by
    rw [writeCount_eq r _ ends hstdin (by
      intro op hop
      obtain ⟨j, -, rfl⟩ := List.mem_map.1 hop
      rfl) hends]
    simp
  have hs : ∀ st : StreamEnv, generateTimelapseStream st env pixels p fuel =
      some { run := r, outcome := out,
             returned := (List.range (writeCount r)).map st.writeReturns,
             handled := (List.range (writeCount r)).filter st.writeErrors } := by
    intro st
    unfold generateTimelapseStream
    rw [hgen]
  refine ⟨_, hs stream, hcount, ?_, ?_, ?_⟩
  · rw [hcalls]; simp
  · simp only [hcount]
  · intro stream2
    exact ⟨_, hs stream2, rfl, rfl, rfl, rfl⟩

/-- C13, amended, with two events, batch size 1 and writes that all return `false`:
two frames are written. -/
theorem generateTimelapse_ignores_drain_witness :
    ∃ sr,
      generateTimelapseStream { writeReturns := fun _ => false, writeErrors := fun _ => false }
        { sharpFails := fun _ => false, encoderEnd := EncoderEnd.close 0 }
        [{ id := 1, x := 0, y := 0,
           rgbaColor := { r := some 255, g := some 0, b := some 0, alpha := 1 } },
         { id := 2, x := 1, y := 0,
           rgbaColor := { r := some 0, g := some 255, b := some 0, alpha := 1 } }]
        ((1 : Nat) : Int) 3 = some sr ∧
      writeCount sr.run = (2 + 1 - 1) / 1 := by
  obtain ⟨sr, h1, h2, -⟩ := generateTimelapse_ignores_drain
    { writeReturns := fun _ => false, writeErrors := fun _ => false }
    { sharpFails := fun _ => false, encoderEnd := EncoderEnd.close 0 }
    [{ id := 1, x := 0, y := 0,
       rgbaColor := { r := some 255, g := some 0, b := some 0, alpha := 1 } },
     { id := 2, x := 1, y := 0,
       rgbaColor := { r := some 0, g := some 255, b := some 0, alpha := 1 } }]
    1 3 (by decide) (by decide) (fun _ => rfl)
  exact ⟨sr, h1, h2⟩

/-! ## The encoder's exit code and the top level -/

theorem generateTimelapse_of_ok_loop (env : Env) (pixels : List Event) (q : Int)
    (fuel : Nat) (r0 : Run)
    (hloop : frameLoop env pixels q fuel 0
      { canvasBuffer := initialCanvas, sharpCalls := [], stdin := [] }
        = some (r0, Except.ok ())) :
    generateTimelapse env pixels q fuel =
      match env.encoderEnd with
      | EncoderEnd.close code =>
        if code = 0 then
          some ({ r0 with stdin := r0.stdin ++ [StdinOp.endInput] }, Except.ok ())
        else
          some ({ r0 with stdin := r0.stdin ++ [StdinOp.endInput] ++ [StdinOp.endInput] },
            Except.error (TimelapseError.exitCode code))
      | EncoderEnd.error =>
        some ({ r0 with stdin := r0.stdin ++ [StdinOp.endInput] ++ [StdinOp.endInput] },
          Except.error TimelapseError.process) := by
  unfold generateTimelapse
  simp only [hloop]

theorem saved_not_printed (err : MainError) :
    ConsoleLine.log ("Timelapse saved to " ++ OUTPUT_VIDEO) ∉
        [ConsoleLine.log "Parsing and sorting CSV...", ConsoleLine.error err] ∧
    ConsoleLine.log ("Timelapse saved to " ++ OUTPUT_VIDEO) ∉
        [ConsoleLine.log "Parsing and sorting CSV...",
          ConsoleLine.log "Generating timelapse...", ConsoleLine.error err] := by
  have h1 : ("Timelapse saved to " ++ OUTPUT_VIDEO) ≠ "Parsing and sorting CSV..." := by
    decide
  have h2 : ("Timelapse saved to " ++ OUTPUT_VIDEO) ≠ "Generating timelapse..." := by
    decide
  constructor <;> simp [h1, h2]

theorem generateTimelapseTimed_afterLoop (env : Env) (pixels : List Event) (q : Int)
    (fuel : Nat) (c : Int) (hend : env.encoderEnd = EncoderEnd.close c) :
    generateTimelapseTimed EncoderTiming.afterLoop env pixels q fuel =
      (generateTimelapse env pixels q fuel).map
        (fun res => (res.1, Outcome.ofExcept res.2)) := by
  unfold generateTimelapseTimed
  simp only [hend]
  split_ifs <;> rfl

theorem generateTimelapseTimed_nil (timing : EncoderTiming) (env : Env) (q : Int)
    (fuel : Nat) :
    generateTimelapseTimed timing env [] q fuel =
      (generateTimelapse env [] q fuel).map
        (fun res => (res.1, Outcome.ofExcept res.2)) := by
  unfold generateTimelapseTimed
  simp

theorem generateTimelapseTimed_of_failed_loop (timing : EncoderTiming) (env : Env)
    (pixels : List Event) (q : Int) (fuel : Nat) (r0 : Run) (err : TimelapseError) (c : Int)
    (hend : env.encoderEnd = EncoderEnd.close c)
    (h : frameLoop env pixels q fuel 0
      { canvasBuffer := initialCanvas, sharpCalls := [], stdin := [] }
        = some (r0, Except.error err)) :
    generateTimelapseTimed timing env pixels q fuel =
      some ({ r0 with stdin := r0.stdin ++ [StdinOp.endInput] }, Outcome.rejected err) := by
  unfold generateTimelapseTimed generateTimelapse
  simp only [hend, h]
  cases timing <;> split_ifs <;> rfl

/-- Whenever the encoder closes, the run is the result of the loop with the input
stream ended, as in `generateTimelapse`: the canvas and the log of serialised
buffers are those of the loop, and the input stream receives `end` once or twice. -/
theorem generateTimelapseTimed_of_loop (timing : EncoderTiming) (env : Env)
    (pixels : List Event) (q : Int) (fuel : Nat) (r0 : Run)
    (out0 : Except TimelapseError Unit) (c : Int)
    (hend : env.encoderEnd = EncoderEnd.close c)
    (h : frameLoop env pixels q fuel 0
      { canvasBuffer := initialCanvas, sharpCalls := [], stdin := [] } = some (r0, out0)) :
    ∃ r out ends, generateTimelapseTimed timing env pixels q fuel = some (r, out) ∧
      r.sharpCalls = r0.sharpCalls ∧ r.canvasBuffer = r0.canvasBuffer ∧
      r.stdin = r0.stdin ++ StdinOp.endInput :: ends ∧
      (∀ op ∈ ends, op = StdinOp.endInput) := by
  obtain ⟨r, out, ends, hg, h1, h2, h3, h4⟩ :=
    generateTimelapse_of_loop env pixels q fuel r0 out0 h
  have hobs : (generateTimelapse env pixels q fuel).map
      (fun res => (res.1, Outcome.ofExcept res.2)) = some (r, Outcome.ofExcept out) := by
    rw [hg]; rfl
  by_cases hn : pixels.length = 0
  · refine ⟨r, Outcome.ofExcept out, ends, ?_, h1, h2, h3, h4⟩
    unfold generateTimelapseTimed
    simp only [hn, if_true]
    exact hobs
  · cases timing with
    | afterLoop =>
      refine ⟨r, Outcome.ofExcept out, ends, ?_, h1, h2, h3, h4⟩
      rw [generateTimelapseTimed_afterLoop env pixels q fuel c hend]
      exact hobs
    | duringLoop =>
      unfold generateTimelapseTimed
      simp only [hn, if_false, hend, h]
      cases out0 with
      | error err => exact ⟨_, _, [], rfl, rfl, rfl, rfl, by simp⟩
      | ok u => exact ⟨_, _, [], rfl, rfl, rfl, rfl, by simp⟩

theorem main_of_rejected (timing : EncoderTiming) (arg : Option JSString)
    (lines : List JSString) (env : Env) (fuel : Nat) (r : Run) (err : TimelapseError)
    (h : generateTimelapseTimed timing env (parseAndSortCSV lines) (pixelsPerFrameArg arg)
      fuel = some (r, Outcome.rejected err)) :
    main timing arg (some lines) env fuel =
      some ([ConsoleLine.log "Parsing and sorting CSV...",
             ConsoleLine.log "Generating timelapse..."],
            MainEnd.rejected (MainError.timelapse err)) := by
  unfold main
  simp only [h]
  rfl

/-- When the end of the encoder reaches the listeners of lines 131-143: for a batch
size `p ≥ 1` and no failing serialisation, `generateTimelapse` succeeds exactly when
the encoder closes with exit code 0, and on a close with a code `c ≠ 0` it throws an
error carrying `c`, all `ceil(n / p)` frames having been written. -/
theorem observed_exit_code_decides (env : Env) (pixels : List Event) (p fuel : Nat)
    (hp : 1 ≤ p) (hfuel : pixels.length < fuel) (hok : ∀ j, env.sharpFails j = false) :
    ((∃ r, generateTimelapse env pixels p fuel = some (r, Except.ok ())) ↔
      env.encoderEnd = EncoderEnd.close 0) ∧
    (∀ c : Int, c ≠ 0 → env.encoderEnd = EncoderEnd.close c →
      ∃ r, generateTimelapse env pixels p fuel
          = some (r, Except.error (TimelapseError.exitCode c)) ∧
        writeCount r = (pixels.length + p - 1) / p) := by
  have hloop := frameLoop_ok_run env pixels p hp hok fuel 0
    { canvasBuffer := initialCanvas, sharpCalls := [], stdin := [] } (by omega)
  have hgen := generateTimelapse_of_ok_loop env pixels p fuel _ (by simpa using hloop)
  refine ⟨?_, ?_⟩
  · constructor
    · rintro ⟨r, hr⟩
      rw [hgen] at hr
      cases hend : env.encoderEnd with
      | close code =>
        by_cases hc : code = 0
        · rw [hc]
        · rw [hend] at hr
          simp only [hc, if_false, Option.some.injEq, Prod.mk.injEq] at hr
          cases hr.2
      | error =>
        rw [hend] at hr
        simp only [Option.some.injEq, Prod.mk.injEq] at hr
        cases hr.2
    · intro hend
      rw [hend] at hgen
      exact ⟨_, hgen⟩
  · intro c hc hend
    rw [hend] at hgen
    simp only [hc, if_false] at hgen
    refine ⟨_, hgen, ?_⟩
    rw [writeCount_eq _ ((List.range ((pixels.length + p - 1) / p)).map
        (fun j => StdinOp.write
          { raw := applyEvents initialCanvas (pixels.take ((j + 1) * p)) }))
      [StdinOp.endInput] (by simp) (by
        intro op hop
        obtain ⟨j, -, rfl⟩ := List.mem_map.1 hop
        rfl) (by simp)]
    simp

/-- An encoder that closes during the loop, with whatever exit code: for a batch
size `p ≥ 1`, at least one event and no failing serialisation, all `ceil(n / p)`
frames are written, the input stream is ended, and the promise stays pending. -/
theorem generateTimelapseTimed_early_close (env : Env) (pixels : List Event)
    (p fuel : Nat) (c : Int) (hne : pixels ≠ []) (hp : 1 ≤ p) (hfuel : pixels.length < fuel)
    (hok : ∀ j, env.sharpFails j = false) (hend : env.encoderEnd = EncoderEnd.close c) :
    ∃ run, generateTimelapseTimed EncoderTiming.duringLoop env pixels p fuel
        = some (run, Outcome.pending) ∧
      writeCount run = (pixels.length + p - 1) / p ∧
      run.sharpCalls.length = (pixels.length + p - 1) / p := by
  have hloop := frameLoop_ok_run env pixels p hp hok fuel 0
    { canvasBuffer := initialCanvas, sharpCalls := [], stdin := [] } (by omega)
  simp only [List.nil_append, Nat.sub_zero, List.drop_zero, Nat.cast_zero] at hloop
  have hn : ¬ pixels.length = 0 := fun h => hne (List.length_eq_zero.1 h)
  have hgen : generateTimelapseTimed EncoderTiming.duringLoop env pixels p fuel =
      some ({ canvasBuffer := applyEvents initialCanvas pixels,
              sharpCalls := (List.range ((pixels.length + p - 1) / p)).map
                (fun j => applyEvents initialCanvas (pixels.take ((j + 1) * p))),
              stdin := (List.range ((pixels.length + p - 1) / p)).map
                (fun j => StdinOp.write
                  { raw := applyEvents initialCanvas (pixels.take ((j + 1) * p)) })
                ++ [StdinOp.endInput] },
            Outcome.pending) := by
    unfold generateTimelapseTimed
    simp only [hn, if_false, hend, hloop]
  refine ⟨_, hgen, ?_, ?_⟩
  · rw [writeCount_eq _ ((List.range ((pixels.length + p - 1) / p)).map
        (fun j => StdinOp.write
          { raw := applyEvents initialCanvas (pixels.take ((j + 1) * p)) }))
      [] rfl (by
        intro op hop
        obtain ⟨j, -, rfl⟩ := List.mem_map.1 hop
        rfl) (by simp)]
    simp
  · simp

/-- C11 fails in the code for an encoder that exits while frames are still being
produced.  With the single row `1,u,0,0,a,b,ffffff`, the default batch size and an
encoder that closes, with any exit code `c`, while the loop awaits the serialisation
of the frame: the frame is written, the input stream is ended, and the promise of
`generateTimelapse` stays pending, neither resolved nor rejected with an error
carrying `c`; the program prints its two progress lines and nothing else, and ends
with status 0.  The same close with code 1 emitted after the loop rejects with an
error carrying 1, which is printed.  The same happens on every non-empty input: for
a batch size `p ≥ 1` and no failing serialisation, a close during the loop leaves
the promise pending, all `ceil(n / p)` frames written. -/
theorem early_close_is_missed :
    (∀ c : Int, ∃ run,
      generateTimelapseTimed EncoderTiming.duringLoop
        { sharpFails := fun _ => false, encoderEnd := EncoderEnd.close c }
        (parseAndSortCSV ["1,u,0,0,a,b,ffffff".toList]) 2 2 = some (run, Outcome.pending) ∧
      run.stdin.map StdinOp.isWrite = [true, false] ∧ run.sharpCalls.length = 1) ∧
    (∀ c : Int,
      (program EncoderTiming.duringLoop none (some ["1,u,0,0,a,b,ffffff".toList])
          { sharpFails := fun _ => false, encoderEnd := EncoderEnd.close c } 2).map
        (fun pe => (pe.console, pe.exitStatus))
      = some ([ConsoleLine.log "Parsing and sorting CSV...",
               ConsoleLine.log "Generating timelapse..."], 0)) ∧
    (program EncoderTiming.afterLoop none (some ["1,u,0,0,a,b,ffffff".toList])
        { sharpFails := fun _ => false, encoderEnd := EncoderEnd.close 1 } 2).map
      (fun pe => (pe.console, pe.exitStatus))
    = some ([ConsoleLine.log "Parsing and sorting CSV...",
             ConsoleLine.log "Generating timelapse...",
             ConsoleLine.error (MainError.timelapse (TimelapseError.exitCode 1))], 0) ∧
    (∀ (env : Env) (pixels : List Event) (p fuel : Nat) (c : Int),
      pixels ≠ [] → 1 ≤ p → pixels.length < fuel → (∀ j, env.sharpFails j = false) →
      env.encoderEnd = EncoderEnd.close c →
      ∃ run, generateTimelapseTimed EncoderTiming.duringLoop env pixels p fuel
          = some (run, Outcome.pending) ∧
        writeCount run = (pixels.length + p - 1) / p) := by
  refine ⟨fun c => ⟨_, rfl, rfl, rfl⟩, fun c => rfl, rfl, ?_⟩
  intro env pixels p fuel c hne hp hfuel hok hend
  obtain ⟨run, h1, h2, -⟩ :=
    generateTimelapseTimed_early_close env pixels p fuel c hne hp hfuel hok hend
  exact ⟨run, h1, h2⟩

/-- C15 as stated fails: with an encoder that closes with code 1, and with an input
file that cannot be read, `main()` rejects and the program still ends with exit
status 0. -/
theorem failure_leaves_exit_status_zero :
    main EncoderTiming.afterLoop none (some [])
        { sharpFails := fun _ => false, encoderEnd := EncoderEnd.close 1 } 1
      = some ([ConsoleLine.log "Parsing and sorting CSV...",
               ConsoleLine.log "Generating timelapse..."],
              MainEnd.rejected (MainError.timelapse (TimelapseError.exitCode 1))) ∧
    (program EncoderTiming.afterLoop none (some [])
        { sharpFails := fun _ => false, encoderEnd := EncoderEnd.close 1 } 1).map
      ProgramEnd.exitStatus = some 0 ∧
    main EncoderTiming.afterLoop none none
        { sharpFails := fun _ => false, encoderEnd := EncoderEnd.close 0 } 1
      = some ([ConsoleLine.log "Parsing and sorting CSV..."],
              MainEnd.rejected MainError.readFile) ∧
    (program EncoderTiming.afterLoop none none
        { sharpFails := fun _ => false, encoderEnd := EncoderEnd.close 0 } 1).map
      ProgramEnd.exitStatus = some 0 :=
  ⟨rfl, rfl, rfl, rfl⟩

theorem main_rejected_console (timing : EncoderTiming) (arg : Option JSString)
    (file : Option (List JSString)) (env : Env) (fuel : Nat) (console : List ConsoleLine)
    (err : MainError)
    (h : main timing arg file env fuel = some (console, MainEnd.rejected err)) :
    (file = none ∧ err = MainError.readFile ∧
      console = [ConsoleLine.log "Parsing and sorting CSV..."]) ∨
    (∃ lines r e, file = some lines ∧ err = MainError.timelapse e ∧
      generateTimelapseTimed timing env (parseAndSortCSV lines) (pixelsPerFrameArg arg) fuel
        = some (r, Outcome.rejected e) ∧
      console = [ConsoleLine.log "Parsing and sorting CSV...",
                 ConsoleLine.log "Generating timelapse..."]) := by
  unfold main at h
  cases file with
  | none =>
    simp only [Option.some.injEq, Prod.mk.injEq, MainEnd.rejected.injEq] at h
    exact Or.inl ⟨rfl, h.2.symm, h.1.symm⟩
  | some lines =>
    simp only [] at h
    cases hg : generateTimelapseTimed timing env (parseAndSortCSV lines)
        (pixelsPerFrameArg arg) fuel with
    | none => rw [hg] at h; cases h
    | some res =>
      obtain ⟨r, out⟩ := res
      rw [hg] at h
      cases out with
      | rejected e =>
        simp only [Option.some.injEq, Prod.mk.injEq, MainEnd.rejected.injEq] at h
        exact Or.inr ⟨lines, r, e, rfl, h.2.symm, hg, h.1.symm⟩
      | resolved =>
        simp only [Option.some.injEq, Prod.mk.injEq] at h
        cases h.2
      | pending =>
        simp only [Option.some.injEq, Prod.mk.injEq] at h
        cases h.2
      | uncaught =>
        simp only [Option.some.injEq, Prod.mk.injEq] at h
        cases h.2

/-- C15, amended: whenever `main()` rejects, the top-level caller prints the error
with `console.error` after what was printed before, the `Timelapse saved` line not
being printed, and the program ends with the default exit status 0.  `main()`
rejects exactly when the input file cannot be read or `generateTimelapse` rejects,
which it does when a serialisation fails while the encoder runs or has closed
(whenever that was), and when the listeners attached after the loop observe a close
with a non-zero code. -/
theorem failure_is_reported (timing : EncoderTiming) (arg : Option JSString)
    (file : Option (List JSString)) (env : Env) (fuel : Nat) (console : List ConsoleLine)
    (err : MainError)
    (h : main timing arg file env fuel = some (console, MainEnd.rejected err)) :
    (∃ pe, program timing arg file env fuel = some pe ∧
      pe.console = console ++ [ConsoleLine.error err] ∧
      ConsoleLine.log ("Timelapse saved to " ++ OUTPUT_VIDEO) ∉ pe.console ∧
      pe.exitStatus = 0) ∧
    ((file = none ∧ err = MainError.readFile) ∨
      ∃ lines r e, file = some lines ∧ err = MainError.timelapse e ∧
        generateTimelapseTimed timing env (parseAndSortCSV lines) (pixelsPerFrameArg arg)
          fuel = some (r, Outcome.rejected e)) ∧
    (main timing arg none env fuel
      = some ([ConsoleLine.log "Parsing and sorting CSV..."],
              MainEnd.rejected MainError.readFile)) ∧
    (∀ (lines : List JSString) (p k : Nat) (c : Int),
      pixelsPerFrameArg arg = (p : Int) → 1 ≤ p → (parseAndSortCSV lines).length < fuel →
      env.encoderEnd = EncoderEnd.close c → k * p < (parseAndSortCSV lines).length →
      (∀ j, j < k → env.sharpFails j = false) → env.sharpFails k = true →
      main timing arg (some lines) env fuel
        = some ([ConsoleLine.log "Parsing and sorting CSV...",
                 ConsoleLine.log "Generating timelapse..."],
                MainEnd.rejected (MainError.timelapse (TimelapseError.serialise k)))) ∧
    (∀ (lines : List JSString) (p : Nat) (c : Int),
      pixelsPerFrameArg arg = (p : Int) → 1 ≤ p → (parseAndSortCSV lines).length < fuel →
      env.encoderEnd = EncoderEnd.close c → c ≠ 0 → (∀ j, env.sharpFails j = false) →
      main EncoderTiming.afterLoop arg (some lines) env fuel
        = some ([ConsoleLine.log "Parsing and sorting CSV...",
                 ConsoleLine.log "Generating timelapse..."],
                MainEnd.rejected (MainError.timelapse (TimelapseError.exitCode c)))) := by
  refine ⟨⟨ProgramEnd.mk (console ++ [ConsoleLine.error err]) 0, ?_, rfl, ?_, rfl⟩, ?_, rfl,
    ?_, ?_⟩
  · unfold program
    rw [h]
  · rcases main_rejected_console timing arg file env fuel console err h with
      ⟨-, -, hc⟩ | ⟨_, _, _, -, -, -, hc⟩
    · rw [hc]; exact (saved_not_printed err).1
    · rw [hc]; exact (saved_not_printed err).2
  · rcases main_rejected_console timing arg file env fuel console err h with
      ⟨h1, h2, -⟩ | ⟨lines, r, e, h1, h2, h3, -⟩
    · exact Or.inl ⟨h1, h2⟩
    · exact Or.inr ⟨lines, r, e, h1, h2, h3⟩
  · intro lines p k c harg hp hfuel hend hk hok hfail
    have hloop := frameLoop_fails_at env (parseAndSortCSV lines) p hp k fuel 0
      { canvasBuffer := initialCanvas, sharpCalls := [], stdin := [] } (by omega) (by omega)
      (fun j hj => by simpa using hok j hj) (by simpa using hfail)
    simp only [List.drop_zero, List.nil_append, List.length_nil, Nat.zero_add,
      Nat.cast_zero] at hloop
    rw [← harg] at hloop
    exact main_of_rejected timing arg lines env fuel _ _
      (generateTimelapseTimed_of_failed_loop timing env _ _ fuel _ _ c hend hloop)
  · intro lines p c harg hp hfuel hend hc hok
    obtain ⟨r, hr, -⟩ :=
      (observed_exit_code_decides env (parseAndSortCSV lines) p fuel hp hfuel hok).2 c hc hend
    refine main_of_rejected EncoderTiming.afterLoop arg lines env fuel r _ ?_
    rw [generateTimelapseTimed_afterLoop env _ _ fuel c hend, harg, hr]
    rfl

/-- C15, amended, with the single row `1,u,0,0,a,b,ffffff` and a serialisation that
fails while the encoder has already closed. -/
theorem failure_is_reported_witness :
    ∃ pe, program EncoderTiming.duringLoop none (some ["1,u,0,0,a,b,ffffff".toList])
        { sharpFails := fun _ => true, encoderEnd := EncoderEnd.close 0 } 2 = some pe ∧
      pe.console = [ConsoleLine.log "Parsing and sorting CSV...",
          ConsoleLine.log "Generating timelapse..."]
        ++ [ConsoleLine.error (MainError.timelapse (TimelapseError.serialise 0))] ∧
      pe.exitStatus = 0 := by
  obtain ⟨pe, h1, h2, -, h3⟩ := (failure_is_reported EncoderTiming.duringLoop none
    (some ["1,u,0,0,a,b,ffffff".toList])
    { sharpFails := fun _ => true, encoderEnd := EncoderEnd.close 0 } 2
    [ConsoleLine.log "Parsing and sorting CSV...", ConsoleLine.log "Generating timelapse..."]
    (MainError.timelapse (TimelapseError.serialise 0)) rfl).1
  exact ⟨pe, h1, h2, h3⟩

/-- A failed `spawn` is reported by an `error` event of the encoder process.  With
no event the listeners are attached in time, `main()` rejects, and the error is
printed with status 0; with one event it is emitted during the first `await`, where
it has no listener: the runtime reports the uncaught exception and the process ends
with status 1. -/
theorem spawn_error_evaluation :
    (program EncoderTiming.afterLoop none (some [])
        { sharpFails := fun _ => false, encoderEnd := EncoderEnd.error } 1).map
      (fun pe => (pe.console, pe.exitStatus))
    = some ([ConsoleLine.log "Parsing and sorting CSV...",
             ConsoleLine.log "Generating timelapse...",
             ConsoleLine.error (MainError.timelapse TimelapseError.process)], 0) ∧
    (∀ timing : EncoderTiming,
      (program timing none (some ["1,u,0,0,a,b,ffffff".toList])
          { sharpFails := fun _ => false, encoderEnd := EncoderEnd.error } 2).map
        (fun pe => (pe.console, pe.exitStatus))
      = some ([ConsoleLine.log "Parsing and sorting CSV...",
               ConsoleLine.log "Generating timelapse...",
               ConsoleLine.uncaughtException], 1)) := by
  refine ⟨rfl, fun timing => ?_⟩
  cases timing <;> rfl

/-! ## The batch size argument -/

theorem frameLoop_diverges (env : Env) (pixels : List Event) (q : Int) (hq : q ≤ 0)
    (hne : 0 < pixels.length) (hok : ∀ j, env.sharpFails j = false) (fuel : Nat) :
    ∀ (i : Int) (run : Run), i ≤ 0 → frameLoop env pixels q fuel i run = none := by
  induction fuel with
  | zero => intro i run _; rfl
  | succ fuel ih =>
    intro i run hi
    rw [frameLoop]
    have h1 : i < (pixels.length : Int) := by omega
    simp only [h1, hok, if_true, Bool.false_eq_true, if_false]
    exact ih _ _ (by omega)

/-- C14 on the argument `-3`: `main` passes -3 to `generateTimelapse`, which on a
non-empty event list never leaves its loop, whatever the fuel and whenever the
encoder closes; an absent argument, `abc` and `0` give 2, and `5` gives 5. -/
theorem negative_pixelsPerFrame_passed :
    pixelsPerFrameArg (some "-3".toList) = -3 ∧
    (∀ timing fuel, main timing (some "-3".toList) (some ["1,u,0,0,a,b,ffffff".toList])
      { sharpFails := fun _ => false, encoderEnd := EncoderEnd.close 0 } fuel = none) ∧
    pixelsPerFrameArg none = 2 ∧ pixelsPerFrameArg (some "abc".toList) = 2 ∧
    pixelsPerFrameArg (some "0".toList) = 2 ∧ pixelsPerFrameArg (some "5".toList) = 5 := by
  refine ⟨by decide, ?_, by decide, by decide, by decide, by decide⟩
  intro timing fuel
  have harg : pixelsPerFrameArg (some "-3".toList) = -3 := by decide
  have hlen : ¬ (parseAndSortCSV ["1,u,0,0,a,b,ffffff".toList]).length = 0 := by decide
  have hloop := frameLoop_diverges
    { sharpFails := fun _ => false, encoderEnd := EncoderEnd.close 0 }
    (parseAndSortCSV ["1,u,0,0,a,b,ffffff".toList]) (-3) (by decide) (by decide)
    (fun _ => rfl) fuel 0 { canvasBuffer := initialCanvas, sharpCalls := [], stdin := [] }
    (le_refl _)
  unfold main
  simp only [harg]
  unfold generateTimelapseTimed generateTimelapse
  simp only [hloop, hlen, if_false]
  cases timing <;> rfl

end PixelTimelapse
